import Mathlib

/-!
# stb_image_write.h (compact copy): checksum and PNG container layer

Shallow embedding of `src/stb_image_write.h`.

Conventions of the embedding:
* a byte is a `Nat` below 256, a byte buffer `(buf, len)` is the `List Nat`
  of its first `len` bytes;
* `unsigned int` is a `Nat` below `2 ^ 32`; where the C code can wrap, the
  reduction `% 2 ^ 32` is written out;
* `int` is an `Int`; `int` products and sums that can leave the 32-bit range
  are reduced to it by `int32` (signed overflow, undefined in C, wraps);
* a function that writes to a `FILE*` is the `List Nat` of the bytes it
  appends; `fwrite` of an `unsigned short` takes the byte order of the host
  as a parameter;
* the global `crc_table` is passed explicitly: functions that may fill it
  return the table next to their result;
* definitions named `*_ref`, `stored_block`, `stored_stream`, `split_blocks`
  and `inflate_stored*` are reference definitions the code is compared with.
-/

namespace StbImageWrite

/-! ## CRC-32 (lines 189-214) -/

/-- Initial contents of the static array `crc_table[256]`: zero-initialised. -/
def crc_table_init : List Nat := List.replicate 256 0

/-- One pass of the inner `k` loop body of `make_crc_table`:
`if (c & 1) c = 0xedb88320U ^ (c >> 1); else c = c >> 1;`. -/
def crc_shift (c : Nat) : Nat :=
  if c &&& 1 ≠ 0 then 0xedb88320 ^^^ (c >>> 1) else c >>> 1

/-- The inner loop `for (k = 0; k < 8; k++)` of `make_crc_table`,
started from `c = n`. -/
def crc_entry (n : Nat) : Nat :=
  (List.range 8).foldl (fun c _ => crc_shift c) n

/-- The C function `make_crc_table`: for `n = 0 .. 255` store the entry
computed by the inner loop into `crc_table[n]`. -/
def make_crc_table (t : List Nat) : List Nat :=
  (List.range 256).foldl (fun t n => t.set n (crc_entry n)) t

/-- The byte loop of `update_crc`:
`c = crc_table[(c ^ buf[n]) & 0xff] ^ (c >> 8)`. -/
def update_crc_loop (t : List Nat) (c : Nat) (buf : List Nat) : Nat :=
  buf.foldl (fun c b => t.getD ((c ^^^ b) &&& 0xff) 0 ^^^ (c >>> 8)) c

/-- The C function `update_crc`: fills the table when `crc_table[1]` is zero,
then runs the byte loop. Returns the new register and the table. -/
def update_crc (t : List Nat) (crc : Nat) (buf : List Nat) : Nat × List Nat :=
  let t1 := if t.getD 1 0 = 0 then make_crc_table t else t
  (update_crc_loop t1 crc buf, t1)

/-- The C function `crc`:
`update_crc(0xffffffffU, buf, len) ^ 0xffffffffU`. -/
def crc (t : List Nat) (buf : List Nat) : Nat × List Nat :=
  let r := update_crc t 0xffffffff buf
  (r.1 ^^^ 0xffffffff, r.2)

/-- Reference CRC-32, one bit: shift right and fold in the reflected
polynomial 0xEDB88320 when the bit shifted out is set. -/
def crc32_ref_bit (c : Nat) : Nat :=
  (c / 2) ^^^ (if c % 2 = 1 then 0xEDB88320 else 0)

/-- Reference CRC-32, one byte: xor the byte in, then eight single-bit steps. -/
def crc32_ref_byte (c b : Nat) : Nat :=
  crc32_ref_bit^[8] (c ^^^ b)

/-- Reference CRC-32 of a byte sequence, computed bit by bit:
initial value 0xFFFFFFFF, final xor 0xFFFFFFFF. -/
def crc32_ref (buf : List Nat) : Nat :=
  buf.foldl crc32_ref_byte 0xFFFFFFFF ^^^ 0xFFFFFFFF

/-- The two states the global table can be in when `crc` is called:
untouched, or filled by an earlier call. -/
def crc_table_state (t : List Nat) : Prop :=
  t = crc_table_init ∨ t = make_crc_table crc_table_init

/-- The ASCII bytes of "123456789". -/
def check_digits : List Nat := [49, 50, 51, 52, 53, 54, 55, 56, 57]

/-! ## Byte writers (lines 56-63, 216-224) -/

/-- The C function `write32`: the four bytes of `x`, least significant first. -/
def write32 (x : Nat) : List Nat :=
  [x &&& 0xff, (x >>> 8) &&& 0xff, (x >>> 16) &&& 0xff, (x >>> 24) &&& 0xff]

/-- The C function `write_uint32_be`: the four bytes of `x`, most significant
first. -/
def write_uint32_be (x : Nat) : List Nat :=
  [(x >>> 24) &&& 0xff, (x >>> 16) &&& 0xff, (x >>> 8) &&& 0xff, x &&& 0xff]

/-- The call `fwrite(&v, 2, 1, f)` on an `unsigned short v`: the two bytes of
the object in the byte order of the host (`le = true` on a little-endian
host). -/
def fwrite_u16 (le : Bool) (v : Nat) : List Nat :=
  if le then [v % 256, v / 256] else [v / 256, v % 256]

/-! ## Stored deflate blocks (lines 227-250 and 341-357) -/

/-- The five `fwrite` calls shared by both block loops: header byte, `len16`,
`nlen16 = (unsigned short)(~len16)`, then `block_len` bytes from `data + pos`. -/
def emit_stored_block (le : Bool) (bfinal : Nat) (data : List Nat) (pos block_len : Nat) :
    List Nat :=
  let len16 := block_len % 2 ^ 16
  let nlen16 := (2 ^ 32 - 1 - len16) % 2 ^ 16
  [bfinal] ++ fwrite_u16 le len16 ++ fwrite_u16 le nlen16 ++ (data.drop pos).take block_len

/-- The loop `while (pos < len)` of `write_zlib_uncompressed`; `block_len` is
`len - pos` capped at 65535. -/
def zlib_block_loop (le : Bool) (data : List Nat) (len pos : Nat) : List Nat :=
  if pos < len then
    emit_stored_block le
        (if pos + (if len - pos > 65535 then 65535 else len - pos) = len then 1 else 0) data pos
        (if len - pos > 65535 then 65535 else len - pos) ++
      zlib_block_loop le data len (pos + (if len - pos > 65535 then 65535 else len - pos))
  else []
termination_by len - pos
decreasing_by split <;> omega

/-- The C function `write_zlib_uncompressed`: the two zlib header bytes
`0x78 0x01`, then the stored blocks. -/
def write_zlib_uncompressed (le : Bool) (data : List Nat) : List Nat :=
  [0x78, 0x01] ++ zlib_block_loop le data data.length 0

/-- The loop `while (remaining > 0)` of `stbi_write_png`. -/
def png_block_loop (le : Bool) (out : List Nat) (pos remaining : Nat) : List Nat :=
  if 0 < remaining then
    emit_stored_block le
        (if remaining = (if remaining > 65535 then 65535 else remaining) then 1 else 0) out pos
        (if remaining > 65535 then 65535 else remaining) ++
      png_block_loop le out (pos + (if remaining > 65535 then 65535 else remaining))
        (remaining - (if remaining > 65535 then 65535 else remaining))
  else []
termination_by remaining
decreasing_by split <;> omega

/-- One stored block as the deflate format describes it: a header byte with
BFINAL in bit 0 and BTYPE = 00 in bits 1-2, LEN as a 16-bit value, NLEN = LEN
xor 0xFFFF as a 16-bit value, then the LEN payload bytes. The 16-bit values
are laid out as the host lays out an `unsigned short`. -/
def stored_block (le : Bool) (final : Bool) (payload : List Nat) : List Nat :=
  [if final then 1 else 0] ++ fwrite_u16 le payload.length ++
    fwrite_u16 le (payload.length ^^^ 0xFFFF) ++ payload

/-- A sequence of stored blocks in which exactly the last one is final. -/
def stored_stream (le : Bool) : List (List Nat) → List Nat
  | [] => []
  | [p] => stored_block le true p
  | p :: q :: rest => stored_block le false p ++ stored_stream le (q :: rest)

/-- The input cut into consecutive pieces of 65535 bytes, the last piece
holding what is left (between 1 and 65535 bytes). -/
def split_blocks (l : List Nat) : List (List Nat) :=
  if l.length = 0 then []
  else if l.length ≤ 65535 then [l]
  else l.take 65535 :: split_blocks (l.drop 65535)
termination_by l.length
decreasing_by simp only [List.length_drop]; omega

/-- Reference decoder for a deflate stream made of stored blocks only
(RFC 1951, 3.2.4): per block, read the header byte and require BTYPE = 00,
read LEN and NLEN least significant byte first and require
NLEN = LEN xor 0xFFFF, copy LEN bytes, and stop after the block whose BFINAL
bit is set. Returns the decoded bytes and the unread rest of the input. -/
def inflate_stored : Nat → List Nat → Option (List Nat × List Nat)
  | 0, _ => none
  | fuel + 1, hdr :: l0 :: l1 :: n0 :: n1 :: rest =>
    if (hdr / 2) % 4 ≠ 0 then none
    else if (n0 + 256 * n1) ≠ ((l0 + 256 * l1) ^^^ 0xFFFF) then none
    else if rest.length < l0 + 256 * l1 then none
    else if hdr % 2 = 1 then some (rest.take (l0 + 256 * l1), rest.drop (l0 + 256 * l1))
    else
      match inflate_stored fuel (rest.drop (l0 + 256 * l1)) with
      | none => none
      | some (more, tail) => some (rest.take (l0 + 256 * l1) ++ more, tail)
  | _ + 1, _ => none

/-- Decode a complete stored-block deflate stream: every block takes at least
five bytes, so the length of the input bounds the number of blocks. -/
def inflate_stored_all (s : List Nat) : Option (List Nat) :=
  match inflate_stored (s.length + 1) s with
  | some (bytes, []) => some bytes
  | _ => none

/-! ## Adler-32 (lines 358-364) -/

/-- The loop `for (i = 0; i < out_len; ++i)` computing `(s1, s2)`; each
`unsigned int` sum is reduced modulo `2 ^ 32` before the `% 65521`. -/
def adler_loop (out : List Nat) : Nat × Nat :=
  out.foldl (fun s b =>
    let s1 := ((s.1 + b) % 2 ^ 32) % 65521
    (s1, ((s.2 + s1) % 2 ^ 32) % 65521)) (1, 0)

/-- The value `adler = (s2 << 16) | s1` computed in `stbi_write_png`. -/
def png_adler (out : List Nat) : Nat :=
  ((adler_loop out).2 <<< 16) % 2 ^ 32 ||| (adler_loop out).1

/-- Reference Adler-32, first sum before reduction: one plus the sum of the
bytes. -/
def adler_sum1 (bytes : List Nat) : Nat := 1 + bytes.sum

/-- Reference Adler-32, second sum before reduction: the sum, over every
non-empty prefix, of the first sum of that prefix. -/
def adler_sum2 (bytes : List Nat) : Nat :=
  ((List.range bytes.length).map (fun k => adler_sum1 (bytes.take (k + 1)))).sum

/-- Reference Adler-32: `(s2 << 16) | s1` with both sums reduced modulo 65521. -/
def adler32_ref (bytes : List Nat) : Nat :=
  ((adler_sum2 bytes % 65521) <<< 16) ||| (adler_sum1 bytes % 65521)

/-! ## The PNG writer (lines 252-406) -/

/-- Two's-complement reduction of a value to the range of a 32-bit `int`. -/
def int32 (x : Int) : Int := (x + 2 ^ 31) % 2 ^ 32 - 2 ^ 31

/-- The byte stored by `(... ) & 0xff` on a two's-complement `int`: the
residue modulo 256. -/
def low_byte (x : Int) : Nat := (x % 256).toNat

/-- The array `sig[8]`. -/
def png_sig : List Nat := [137, 80, 78, 71, 13, 10, 26, 10]

/-- The string literal "IHDR". -/
def tag_IHDR : List Nat := [73, 72, 68, 82]

/-- The string literal "IDAT". -/
def tag_IDAT : List Nat := [73, 68, 65, 84]

/-- The ternary `(comp == 1) ? 0 : (comp == 3) ? 2 : 6`. -/
def color_type (comp : Int) : Nat :=
  if comp = 1 then 0 else if comp = 3 then 2 else 6

/-- The array `ihdr[13]` as filled at lines 264-279; `>>` on an `int` is the
arithmetic shift. -/
def png_ihdr (w h comp : Int) : List Nat :=
  [low_byte (w >>> (24 : Nat)), low_byte (w >>> (16 : Nat)), low_byte (w >>> (8 : Nat)),
   low_byte (w >>> (0 : Nat)),
   low_byte (h >>> (24 : Nat)), low_byte (h >>> (16 : Nat)), low_byte (h >>> (8 : Nat)),
   low_byte (h >>> (0 : Nat)),
   8, color_type comp, 0, 0, 0]

/-- Lines 284-285: `ihdr_crc = update_crc(0xffffffffU, "IHDR", 4);`
`ihdr_crc = update_crc(ihdr_crc ^ 0xffffffffU, ihdr, 13) ^ 0xffffffffU;`. -/
def png_ihdr_crc (t : List Nat) (ihdr : List Nat) : Nat × List Nat :=
  let r1 := update_crc t 0xffffffff tag_IHDR
  let r2 := update_crc r1.2 (r1.1 ^^^ 0xffffffff) ihdr
  (r2.1 ^^^ 0xffffffff, r2.2)

/-- The byte `p[i]` of the caller's pixel memory; a read outside the supplied
bytes (undefined in C) yields 0. -/
def mem_read (data : List Nat) (i : Int) : Nat :=
  if i < 0 then 0 else data.getD i.toNat 0

/-- One pass of the loop over `y` (lines 298-304): the filter byte 0, then
`rowbytes` bytes copied from `pixels + y * stride_in_bytes`. -/
def png_row (data : List Nat) (rowbytes stride : Int) (y : Nat) : List Nat :=
  0 :: (List.range rowbytes.toNat).map
    (fun (x : Nat) => mem_read data ((y : Int) * stride + (x : Int)))

/-- The rows written by the loop `for (y = 0; y < h; ++y)`, row `y` placed at
offset `y * (rowbytes + 1)`. -/
def png_rows (data : List Nat) (rowbytes h stride : Int) : List Nat :=
  ((List.range h.toNat).map (png_row data rowbytes stride)).flatten

/-- The value `out_len = (rowbytes + 1) * h` with `rowbytes = comp * w`, in
32-bit `int` arithmetic. -/
def png_out_len (w h comp : Int) : Int :=
  int32 ((int32 (comp * w) + 1) * h)

/-- The buffer `out[0 .. out_len)` after the row loop; bytes the loop did not
write read as 0. -/
def png_out (data : List Nat) (w h comp stride : Int) : List Nat :=
  (List.range (png_out_len w h comp).toNat).map
    (fun i => (png_rows data (int32 (comp * w)) h stride).getD i 0)

/-- The contents of the temporary stream (lines 337-365): zlib header, stored
blocks, then `write32(tmp, adler)`. -/
def png_tmp (le : Bool) (out : List Nat) : List Nat :=
  [0x78, 0x01] ++ png_block_loop le out 0 out.length ++ write32 (png_adler out)

/-- The loop `while (!feof(tmp))` (lines 377-384): copy the temporary stream
to the file in reads of at most 4096 bytes. -/
def png_copy_loop (tmp : List Nat) : List Nat :=
  if tmp.length = 0 then []
  else tmp.take 4096 ++ png_copy_loop (tmp.drop 4096)
termination_by tmp.length
decreasing_by simp only [List.length_drop]; omega

/-- What the environment does at the points where `stbi_write_png` can fail,
and the byte order of the host. -/
structure PngEnv where
  filename_null : Bool
  fopen_ok : Bool
  malloc_out_ok : Bool
  malloc_zbuf_ok : Bool
  tmpfile_ok : Bool
  little_endian : Bool

/-- Result of a call: the returned `int`, the bytes written to the output file
(`none` when it was never opened) and the global CRC table afterwards. -/
structure PngResult where
  ret : Int
  file : Option (List Nat)
  table : List Nat

/-- The bytes written up to and including the header chunk (lines 260-286),
given the CRC field value. -/
def png_head (w h comp : Int) (ihdr_crc : Nat) : List Nat :=
  png_sig ++ write_uint32_be 13 ++ tag_IHDR ++ png_ihdr w h comp ++ write_uint32_be ihdr_crc

/-- The C function `stbi_write_png`. Every `fwrite` is taken to succeed. -/
def stbi_write_png (env : PngEnv) (t : List Nat) (w h comp : Int) (data : List Nat)
    (stride_in_bytes : Int) : PngResult :=
  if env.filename_null then ⟨0, none, t⟩
  else if !env.fopen_ok then ⟨0, none, t⟩
  else
    let c := png_ihdr_crc t (png_ihdr w h comp)
    let head := png_head w h comp c.1
    if !env.malloc_out_ok then ⟨0, some head, c.2⟩
    else if !env.malloc_zbuf_ok then ⟨0, some head, c.2⟩
    else if !env.tmpfile_ok then ⟨0, some head, c.2⟩
    else
      let tmp := png_tmp env.little_endian (png_out data w h comp stride_in_bytes)
      ⟨0, some (head ++ write_uint32_be (tmp.length % 2 ^ 32) ++ tag_IDAT ++ png_copy_loop tmp),
        c.2⟩

/-- A four-byte field read as a big-endian unsigned value, first byte most
significant. -/
def read_uint32_be (bs : List Nat) : Nat :=
  bs.foldl (fun acc b => acc * 256 + b) 0

/-- A four-byte field read as a little-endian unsigned value, first byte least
significant. -/
def read_uint32_le (bs : List Nat) : Nat :=
  bs.foldr (fun b acc => b + 256 * acc) 0

/-! ## The TGA writer (lines 124-161) -/

/-- Result of a call of `stbi_write_tga` or `stbi_write_bmp`: the returned
`int` and the bytes written (`none` when the file did not open). -/
structure WriteResult where
  ret : Int
  file : Option (List Nat)

/-- The array `header[18]` of `stbi_write_tga` after lines 130-136. -/
def tga_header (w h comp : Int) : List Nat :=
  [0, 0, 2, 0, 0, 0, 0, 0, 0, 0, 0, 0,
   low_byte w, low_byte (w >>> (8 : Nat)), low_byte h, low_byte (h >>> (8 : Nat)),
   low_byte (int32 (comp * 8)), 0]

/-- The bytes written for the pixel `(x, y)` by the body of the inner loop of
`stbi_write_tga` (lines 141-156): when `comp >= 4` the single byte `r`, then
the first four or three bytes of `out = {b, g, r, a}`. -/
def tga_pixel (data : List Nat) (w comp : Int) (y x : Nat) : List Nat :=
  let p := int32 (int32 ((y : Int) * w + (x : Int)) * comp)
  let r := mem_read data p
  let g := if comp ≥ 3 then mem_read data (p + 1) else mem_read data p
  let b := if comp ≥ 3 then mem_read data (p + 2) else mem_read data p
  let a := if comp ≥ 4 then mem_read data (p + 3) else 255
  (if comp ≥ 4 then [r] else []) ++ (if comp ≥ 4 then [b, g, r, a] else [b, g, r])

/-- The bytes written by the loops `for (y = h - 1; y >= 0; --y)` and
`for (x = 0; x < w; ++x)` of `stbi_write_tga`. -/
def tga_pixels (data : List Nat) (w h comp : Int) : List Nat :=
  ((List.range h.toNat).reverse.map
    (fun y => ((List.range w.toNat).map (tga_pixel data w comp y)).flatten)).flatten

/-- The C function `stbi_write_tga`. -/
def stbi_write_tga (fopen_ok : Bool) (w h comp : Int) (data : List Nat) : WriteResult :=
  if !fopen_ok then ⟨0, none⟩
  else ⟨1, some (tga_header w h comp ++ tga_pixels data w h comp)⟩

/-! ## The BMP writer (lines 66-121) -/

/-- The value `pad = (4 - (w * 3) % 4) % 4`; `%` is the truncating remainder
of C. -/
def bmp_pad (w : Int) : Int :=
  Int.tmod (4 - Int.tmod (int32 (w * 3)) 4) 4

/-- The value `fileSize = headersize + imagesize` with `headersize = 14 + 40`
and `imagesize = (unsigned int)((3 * w + pad) * h)`. -/
def bmp_file_size (w h : Int) : Nat :=
  (54 + (int32 (int32 (int32 (3 * w) + bmp_pad w) * h) % 2 ^ 32).toNat) % 2 ^ 32

/-- The array `bmpfileheader[14]` after lines 76-81. -/
def bmp_file_header (w h : Int) : List Nat :=
  [66, 77] ++ write32 (bmp_file_size w h) ++ [0, 0, 0, 0, 54, 0, 0, 0]

/-- The array `bi[40]` after lines 85-96. -/
def bmp_info_header (w h : Int) : List Nat :=
  [40, 0, 0, 0,
   low_byte w, low_byte (w >>> (8 : Nat)), low_byte (w >>> (16 : Nat)),
   low_byte (w >>> (24 : Nat)),
   low_byte h, low_byte (h >>> (8 : Nat)), low_byte (h >>> (16 : Nat)),
   low_byte (h >>> (24 : Nat)),
   1, 0, 24, 0] ++ List.replicate 24 0

/-- The three bytes `{b, g, r}` written for the pixel `(x, y)` by the inner
loop of `stbi_write_bmp` (lines 103-113). -/
def bmp_pixel (data : List Nat) (w comp : Int) (y x : Nat) : List Nat :=
  let p := int32 (int32 ((y : Int) * w + (x : Int)) * comp)
  let r := mem_read data p
  let g := if comp ≥ 3 then mem_read data (p + 1) else mem_read data p
  let b := if comp ≥ 3 then mem_read data (p + 2) else mem_read data p
  [b, g, r]

/-- One pass of the loop over `y` of `stbi_write_bmp`: the pixels of the row,
then `pad` zero bytes. -/
def bmp_row (data : List Nat) (w comp : Int) (y : Nat) : List Nat :=
  ((List.range w.toNat).map (bmp_pixel data w comp y)).flatten ++
    List.replicate (bmp_pad w).toNat 0

/-- The C function `stbi_write_bmp`: the two headers, then the rows from
`y = h - 1` down to `y = 0`. -/
def stbi_write_bmp (fopen_ok : Bool) (w h comp : Int) (data : List Nat) : WriteResult :=
  if !fopen_ok then ⟨0, none⟩
  else ⟨1, some (bmp_file_header w h ++ bmp_info_header w h ++
    ((List.range h.toNat).reverse.map (bmp_row data w comp)).flatten)⟩


/-! ## Lemmas on the CRC-32 code -/

theorem crc_shift_eq_ref (c : Nat) : crc_shift c = crc32_ref_bit c := by
  unfold crc_shift crc32_ref_bit
  rw [Nat.and_one_is_mod, Nat.shiftRight_one]
  rcases Nat.mod_two_eq_zero_or_one c with h | h
  · simp [h]
  · simp [h, Nat.xor_comm]

theorem crc_entry_eq_ref (n : Nat) : crc_entry n = crc32_ref_bit^[8] n := by
  unfold crc_entry
  simp [List.range_succ, crc_shift_eq_ref, Function.iterate_succ]

theorem xor_cancel_right (x y p : Nat) : x ^^^ p ^^^ (y ^^^ p) = x ^^^ y := by
  rw [Nat.xor_assoc, Nat.xor_comm y p, ← Nat.xor_assoc p p y, Nat.xor_self, Nat.zero_xor]

theorem crc32_ref_bit_xor (a b : Nat) :
    crc32_ref_bit (a ^^^ b) = crc32_ref_bit a ^^^ crc32_ref_bit b := by
  unfold crc32_ref_bit
  rw [Nat.xor_div_two, Nat.xor_mod_two_eq]
  rcases Nat.mod_two_eq_zero_or_one a with ha | ha <;>
    rcases Nat.mod_two_eq_zero_or_one b with hb | hb <;>
    · have : (a + b) % 2 = (a % 2 + b % 2) % 2 := Nat.add_mod a b 2
      rw [this, ha, hb]
      simp only [Nat.reduceAdd, Nat.reduceMod, Nat.zero_ne_one, if_true, if_false, Nat.xor_zero,
        Nat.one_ne_zero, xor_cancel_right]
      try ac_rfl

theorem crc32_ref_iter_xor (k a b : Nat) :
    crc32_ref_bit^[k] (a ^^^ b) = crc32_ref_bit^[k] a ^^^ crc32_ref_bit^[k] b := by
  induction k generalizing a b with
  | zero => rfl
  | succ k ih => simp only [Function.iterate_succ, Function.comp, crc32_ref_bit_xor, ih]

theorem crc32_ref_iter_split (k x : Nat) :
    crc32_ref_bit^[k] x = crc32_ref_bit^[k] (x % 2 ^ k) ^^^ (x / 2 ^ k) := by
  induction k generalizing x with
  | zero => simp [Nat.mod_one]
  | succ k ih =>
    have h1 : crc32_ref_bit (x % 2 ^ (k + 1)) =
        ((x / 2) % 2 ^ k) ^^^ (if x % 2 = 1 then 0xEDB88320 else 0) := by
      unfold crc32_ref_bit
      have e1 : x % 2 ^ (k + 1) / 2 = (x / 2) % 2 ^ k := by
        rw [pow_succ, Nat.mul_comm, Nat.mod_mul_right_div_self]
      have e2 : x % 2 ^ (k + 1) % 2 = x % 2 := by
        rw [pow_succ]; exact Nat.mod_mul_left_mod x (2 ^ k) 2
      rw [e1, e2]
    have h2 : x / 2 ^ (k + 1) = x / 2 / 2 ^ k := by
      rw [pow_succ, Nat.mul_comm, Nat.div_div_eq_div_mul]
    simp only [Function.iterate_succ, Function.comp]
    rw [h1, crc32_ref_iter_xor k (x / 2 % 2 ^ k), h2]
    conv_lhs => rw [show crc32_ref_bit x = (x / 2) ^^^ (if x % 2 = 1 then 0xEDB88320 else 0) from rfl]
    rw [crc32_ref_iter_xor k (x / 2), ih (x / 2)]
    ac_rfl

theorem fill_length (f : Nat → Nat) (k : Nat) (t : List Nat) :
    ((List.range k).foldl (fun t n => t.set n (f n)) t).length = t.length := by
  induction k with
  | zero => simp
  | succ k ih => simp [List.range_succ, List.foldl_append, ih]

theorem fill_getD (f : Nat → Nat) (k : Nat) (t : List Nat) (hk : k ≤ t.length) (i : Nat) :
    ((List.range k).foldl (fun t n => t.set n (f n)) t).getD i 0 =
      if i < k then f i else t.getD i 0 := by
  induction k with
  | zero => simp
  | succ k ih =>
    have ih1 := ih (Nat.le_of_succ_le hk)
    simp only [List.range_succ, List.foldl_append, List.foldl_cons, List.foldl_nil]
    rw [List.getD_eq_getElem?_getD, List.getElem?_set]
    by_cases hik : k = i
    · subst hik
      have hlt : k < t.length := hk
      simp [fill_length, hlt]
    · rw [if_neg hik, ← List.getD_eq_getElem?_getD, ih1]
      by_cases h1 : i < k
      · simp [h1, Nat.lt_succ_of_lt h1]
      · have : ¬ i < k + 1 := by omega
        simp [h1, this]

theorem make_crc_table_getD (t : List Nat) (ht : t.length = 256) (i : Nat) (hi : i < 256) :
    (make_crc_table t).getD i 0 = crc32_ref_bit^[8] i := by
  unfold make_crc_table
  rw [fill_getD crc_entry 256 t (by omega) i, if_pos hi, crc_entry_eq_ref]

theorem make_crc_table_length (t : List Nat) : (make_crc_table t).length = t.length :=
  fill_length crc_entry 256 t

theorem make_crc_table_one (t : List Nat) (ht : t.length = 256) :
    (make_crc_table t).getD 1 0 ≠ 0 := by
  rw [make_crc_table_getD t ht 1 (by decide)]
  decide

theorem xor_div_two_pow (a b k : Nat) : (a ^^^ b) / 2 ^ k = a / 2 ^ k ^^^ b / 2 ^ k := by
  induction k generalizing a b with
  | zero => simp
  | succ k ih =>
    rw [pow_succ, Nat.mul_comm, ← Nat.div_div_eq_div_mul, ← Nat.div_div_eq_div_mul,
      ← Nat.div_div_eq_div_mul, Nat.xor_div_two, ih]

theorem table_step (t : List Nat) (ht : t.length = 256) (c b : Nat) (hb : b < 256) :
    (make_crc_table t).getD ((c ^^^ b) &&& 0xff) 0 ^^^ (c >>> 8) = crc32_ref_byte c b := by
  have hand : (c ^^^ b) &&& 0xff = (c ^^^ b) % 2 ^ 8 :=
    Nat.and_pow_two_sub_one_eq_mod (c ^^^ b) 8
  have hlt : (c ^^^ b) % 2 ^ 8 < 256 := Nat.mod_lt _ (by decide)
  have hsh : c >>> 8 = (c ^^^ b) / 2 ^ 8 := by
    rw [Nat.shiftRight_eq_div_pow, xor_div_two_pow, Nat.div_eq_of_lt (show b < 2 ^ 8 from hb),
      Nat.xor_zero]
  rw [hand, make_crc_table_getD t ht _ hlt, hsh]
  unfold crc32_ref_byte
  exact (crc32_ref_iter_split 8 (c ^^^ b)).symm

theorem update_crc_loop_filled (t : List Nat) (ht : t.length = 256) (buf : List Nat)
    (hb : ∀ b ∈ buf, b < 256) (c : Nat) :
    update_crc_loop (make_crc_table t) c buf = buf.foldl crc32_ref_byte c := by
  unfold update_crc_loop
  induction buf generalizing c with
  | nil => simp only [List.foldl_nil]
  | cons b rest ih =>
    simp only [List.foldl_cons]
    rw [table_step t ht c b (hb b (List.mem_cons_self b rest))]
    exact ih (fun x hx => hb x (List.mem_cons_of_mem b hx)) _

set_option maxRecDepth 100000 in
/-- From either state of the table, `update_crc` runs its byte loop on the
filled table and leaves the table filled. -/
theorem update_crc_of_state (t : List Nat) (ht : crc_table_state t) (c : Nat) (buf : List Nat) :
    update_crc t c buf =
      (update_crc_loop (make_crc_table crc_table_init) c buf, make_crc_table crc_table_init) := by
  have hlen : crc_table_init.length = 256 := List.length_replicate 256 0
  unfold update_crc
  rcases ht with h | h
  · subst h
    have : crc_table_init.getD 1 0 = 0 := rfl
    rw [if_pos this]
  · subst h
    rw [if_neg (make_crc_table_one _ hlen)]

theorem crc_eq_ref (t : List Nat) (ht : crc_table_state t) (buf : List Nat)
    (hb : ∀ b ∈ buf, b < 256) :
    crc t buf = (crc32_ref buf, make_crc_table crc_table_init) := by
  unfold crc
  rw [update_crc_of_state t ht]
  simp only
  rw [update_crc_loop_filled crc_table_init (List.length_replicate 256 0) buf hb]
  rfl

set_option maxRecDepth 100000 in
theorem crc32_ref_check_digits : crc32_ref check_digits = 0xCBF43926 := by decide

theorem crc32_ref_nil : crc32_ref [] = 0 := by decide

/-! ## C1: the table-driven `crc` is the bitwise CRC-32 -/

/-- C1: for every byte sequence `buf`, and whether the global table is still
untouched or was already filled by an earlier call, `crc(buf, len)` is the
bit-by-bit reflected CRC-32 of `buf` (polynomial 0xEDB88320, initial value and
final xor 0xFFFFFFFF); the CRC of the empty sequence is 0 and the CRC of the
ASCII digits "123456789" is 0xCBF43926. -/
theorem crc_is_reflected_crc32 (t : List Nat) (ht : crc_table_state t) (buf : List Nat)
    (hb : ∀ b ∈ buf, b < 256) :
    (crc t buf).1 = crc32_ref buf ∧ (crc t []).1 = 0 ∧ (crc t check_digits).1 = 0xCBF43926 := by
  refine ⟨?_, ?_, ?_⟩
  · rw [crc_eq_ref t ht buf hb]
  · rw [crc_eq_ref t ht [] (fun b hb => absurd hb (List.not_mem_nil b))]
    exact crc32_ref_nil
  · rw [crc_eq_ref t ht check_digits (by decide)]
    exact crc32_ref_check_digits

/-- C1 at concrete inputs: the untouched table and the three bytes "abc". -/
theorem crc_is_reflected_crc32_witness :
    crc_table_state crc_table_init ∧ (∀ b ∈ [97, 98, 99], b < 256) ∧
      ((crc crc_table_init [97, 98, 99]).1 = crc32_ref [97, 98, 99] ∧
        (crc crc_table_init []).1 = 0 ∧ (crc crc_table_init check_digits).1 = 0xCBF43926) :=
  ⟨Or.inl rfl, by decide,
    crc_is_reflected_crc32 crc_table_init (Or.inl rfl) [97, 98, 99] (by decide)⟩

/-! ## Lemmas on the stored-block writers -/

theorem xor_ffff (n : Nat) (hn : n < 2 ^ 16) : n ^^^ 0xFFFF = 65535 - n := by
  apply Nat.eq_of_testBit_eq
  intro i
  have h2 : 65535 - n = 2 ^ 16 - (n + 1) := by omega
  rw [h2, Nat.testBit_two_pow_sub_succ hn, Nat.testBit_xor,
    show (0xFFFF : Nat) = 2 ^ 16 - 1 from rfl, Nat.testBit_two_pow_sub_one]
  by_cases hi : i < 16
  · simp [hi]
  · have : n.testBit i = false :=
      Nat.testBit_lt_two_pow (Nat.lt_of_lt_of_le hn (Nat.pow_le_pow_right (by decide) (by omega)))
    simp [hi, this]

theorem nlen16_eq (n : Nat) (hn : n ≤ 65535) :
    (2 ^ 32 - 1 - n % 2 ^ 16) % 2 ^ 16 = n ^^^ 0xFFFF := by
  rw [xor_ffff n (by omega)]
  omega

theorem emit_eq_stored_block (le : Bool) (final : Bool) (data : List Nat) (pos n : Nat)
    (hn : n ≤ 65535) (hfit : pos + n ≤ data.length) :
    emit_stored_block le (if final then 1 else 0) data pos n =
      stored_block le final ((data.drop pos).take n) := by
  have hlen : ((data.drop pos).take n).length = n := by
    rw [List.length_take, List.length_drop]; omega
  unfold emit_stored_block stored_block
  simp only [hlen]
  rw [nlen16_eq n hn, Nat.mod_eq_of_lt (show n < 2 ^ 16 by omega)]

theorem split_blocks_small (l : List Nat) (h0 : 0 < l.length) (h : l.length ≤ 65535) :
    split_blocks l = [l] := by
  rw [split_blocks, if_neg (by omega), if_pos h]

theorem split_blocks_big (l : List Nat) (h : 65535 < l.length) :
    split_blocks l = l.take 65535 :: split_blocks (l.drop 65535) := by
  rw [split_blocks, if_neg (by omega), if_neg (by omega)]

theorem split_blocks_ne_nil (l : List Nat) (h0 : 0 < l.length) : split_blocks l ≠ [] := by
  by_cases h : l.length ≤ 65535
  · rw [split_blocks_small l h0 h]; simp
  · rw [split_blocks_big l (by omega)]; simp

theorem stored_stream_cons (le : Bool) (p : List Nat) (rest : List (List Nat))
    (h : rest ≠ []) :
    stored_stream le (p :: rest) = stored_block le false p ++ stored_stream le rest := by
  cases rest with
  | nil => exact absurd rfl h
  | cons q r => rfl

theorem png_block_loop_eq (le : Bool) (out : List Nat) (remaining : Nat) :
    ∀ pos, pos + remaining = out.length → 0 < remaining →
      png_block_loop le out pos remaining = stored_stream le (split_blocks (out.drop pos)) := by
  induction remaining using Nat.strong_induction_on with
  | _ remaining ih =>
    intro pos hpos hrem
    have hdl : (out.drop pos).length = remaining := by rw [List.length_drop]; omega
    rw [png_block_loop, if_pos hrem]
    by_cases hbig : remaining > 65535
    · simp only [if_pos hbig]
      rw [if_neg (by omega), split_blocks_big _ (by omega), List.drop_drop,
        stored_stream_cons le _ _ (split_blocks_ne_nil _ (by
          rw [List.length_drop]; omega)),
        ih (remaining - 65535) (by omega) (pos + 65535) (by omega) (by omega)]
      have := emit_eq_stored_block le false out pos 65535 (by omega) (by omega)
      simp only [Bool.false_eq_true, if_false] at this
      rw [this]
    · simp only [if_neg hbig, if_true]
      rw [split_blocks_small _ (by omega) (by omega)]
      have := emit_eq_stored_block le true out pos remaining (by omega) (by omega)
      simp only [if_true] at this
      rw [this, png_block_loop, if_neg (by omega), List.append_nil]
      have hfull : (out.drop pos).take remaining = out.drop pos := by
        rw [List.take_of_length_le (by omega)]
      rw [hfull]
      rfl

theorem zlib_block_loop_eq (le : Bool) (data : List Nat) (remaining : Nat) :
    ∀ pos, pos + remaining = data.length → 0 < remaining →
      zlib_block_loop le data data.length pos =
        stored_stream le (split_blocks (data.drop pos)) := by
  induction remaining using Nat.strong_induction_on with
  | _ remaining ih =>
    intro pos hpos hrem
    have hdl : (data.drop pos).length = remaining := by rw [List.length_drop]; omega
    have hsub : data.length - pos = remaining := by omega
    rw [zlib_block_loop, if_pos (by omega), hsub]
    by_cases hbig : remaining > 65535
    · simp only [if_pos hbig]
      rw [if_neg (by omega), split_blocks_big _ (by omega), List.drop_drop,
        stored_stream_cons le _ _ (split_blocks_ne_nil _ (by
          rw [List.length_drop]; omega)),
        ih (remaining - 65535) (by omega) (pos + 65535) (by omega) (by omega)]
      have := emit_eq_stored_block le false data pos 65535 (by omega) (by omega)
      simp only [Bool.false_eq_true, if_false] at this
      rw [this]
    · simp only [if_neg hbig]
      rw [if_pos (by omega), split_blocks_small _ (by omega) (by omega)]
      have := emit_eq_stored_block le true data pos remaining (by omega) (by omega)
      simp only [if_true] at this
      rw [this, zlib_block_loop, if_neg (by omega), List.append_nil]
      have hfull : (data.drop pos).take remaining = data.drop pos := by
        rw [List.take_of_length_le (by omega)]
      rw [hfull]
      rfl

theorem split_blocks_props (n : Nat) :
    ∀ l : List Nat, l.length = n → 0 < n →
      (split_blocks l).flatten = l ∧
      (split_blocks l).length = (n + 65534) / 65535 ∧
      (∀ p ∈ split_blocks l, 1 ≤ p.length ∧ p.length ≤ 65535) ∧
      (∀ p ∈ (split_blocks l).dropLast, p.length = 65535) := by
  induction n using Nat.strong_induction_on with
  | _ n ih =>
    intro l hl hn
    by_cases hbig : 65535 < n
    · rw [split_blocks_big l (by omega)]
      have hd : (l.drop 65535).length = n - 65535 := by rw [List.length_drop]; omega
      obtain ⟨h1, h2, h3, h4⟩ := ih (n - 65535) (by omega) (l.drop 65535) hd (by omega)
      have ht : (l.take 65535).length = 65535 := by rw [List.length_take]; omega
      refine ⟨?_, ?_, ?_, ?_⟩
      · rw [List.flatten_cons, h1, List.take_append_drop]
      · rw [List.length_cons, h2]; omega
      · intro p hp
        rcases List.mem_cons.mp hp with h | h
        · rw [h, ht]; omega
        · exact h3 p h
      · intro p hp
        rw [List.dropLast_cons_of_ne_nil (split_blocks_ne_nil _ (by omega))] at hp
        rcases List.mem_cons.mp hp with h | h
        · rw [h, ht]
        · exact h4 p h
    · rw [split_blocks_small l (by omega) (by omega)]
      refine ⟨by simp, ?_, ?_, by simp⟩
      · rw [List.length_singleton]; omega
      · intro p hp
        rw [List.mem_singleton.mp hp]; omega

theorem fwrite_u16_le (v : Nat) : fwrite_u16 true v = [v % 256, v / 256] := rfl

theorem inflate_stored_block (fuel : Nat) (final : Bool) (p tail : List Nat)
    (hp : p.length ≤ 65535) :
    inflate_stored (fuel + 1) (stored_block true final p ++ tail) =
      if final then some (p, tail)
      else match inflate_stored fuel tail with
        | none => none
        | some (more, rest) => some (p ++ more, rest) := by
  have hx : p.length ^^^ 0xFFFF = 65535 - p.length := xor_ffff _ (by omega)
  have e1 : p.length % 256 + 256 * (p.length / 256) = p.length := Nat.mod_add_div _ _
  have e2 : (65535 - p.length) % 256 + 256 * ((65535 - p.length) / 256) = 65535 - p.length :=
    Nat.mod_add_div _ _
  unfold stored_block
  rw [fwrite_u16_le, fwrite_u16_le, hx]
  simp only [List.cons_append, List.nil_append, List.append_assoc, inflate_stored, e1, e2, hx]
  cases final <;> simp

theorem stored_block_length (le : Bool) (final : Bool) (p : List Nat) :
    (stored_block le final p).length = 5 + p.length := by
  unfold stored_block fwrite_u16
  cases le <;> simp <;> omega

theorem stored_stream_length (le : Bool) (blocks : List (List Nat)) :
    (stored_stream le blocks).length = 5 * blocks.length + blocks.flatten.length := by
  induction blocks with
  | nil => rfl
  | cons p rest ih =>
    cases rest with
    | nil => simp [stored_stream, stored_block_length]
    | cons q r =>
      have e1 : (p :: q :: r).flatten = p ++ (q :: r).flatten := rfl
      have e2 : (p :: q :: r).length = (q :: r).length + 1 := rfl
      rw [stored_stream_cons le p (q :: r) (by simp), List.length_append, ih,
        stored_block_length, e1, e2, List.length_append]
      omega

theorem inflate_stored_stream (blocks : List (List Nat)) :
    blocks ≠ [] → (∀ p ∈ blocks, p.length ≤ 65535) →
      ∀ fuel tail, blocks.length ≤ fuel →
        inflate_stored fuel (stored_stream true blocks ++ tail) = some (blocks.flatten, tail) := by
  induction blocks with
  | nil => intro h; exact absurd rfl h
  | cons p rest ih =>
    intro _ hsz fuel tail hfuel
    obtain ⟨f, rfl⟩ : ∃ f, fuel = f + 1 := ⟨fuel - 1, by simp at hfuel; omega⟩
    have hp : p.length ≤ 65535 := hsz p (List.mem_cons_self p rest)
    cases rest with
    | nil =>
      have := inflate_stored_block f true p tail hp
      simpa [stored_stream] using this
    | cons q r =>
      have hrec := ih (by simp) (fun x hx => hsz x (List.mem_cons_of_mem p hx)) f tail
        (by simp at hfuel ⊢; omega)
      rw [stored_stream_cons true p (q :: r) (by simp), List.append_assoc,
        inflate_stored_block f false p _ hp, hrec]
      simp

theorem inflate_stored_all_stream (blocks : List (List Nat)) (hne : blocks ≠ [])
    (hsz : ∀ p ∈ blocks, p.length ≤ 65535) :
    inflate_stored_all (stored_stream true blocks) = some blocks.flatten := by
  unfold inflate_stored_all
  have h := inflate_stored_stream blocks hne hsz ((stored_stream true blocks).length + 1) []
    (by rw [stored_stream_length]; omega)
  rw [List.append_nil] at h
  rw [h]

theorem split_blocks_65536 (l : List Nat) (h : l.length = 65536) :
    (split_blocks l).map List.length = [65535, 1] := by
  rw [split_blocks_big l (by omega),
    split_blocks_small (l.drop 65535) (by rw [List.length_drop]; omega)
      (by rw [List.length_drop]; omega)]
  simp [h]

theorem split_blocks_131071 (l : List Nat) (h : l.length = 131071) :
    (split_blocks l).map List.length = [65535, 65535, 1] := by
  rw [split_blocks_big l (by omega),
    split_blocks_big (l.drop 65535) (by rw [List.length_drop]; omega),
    split_blocks_small ((l.drop 65535).drop 65535)
      (by rw [List.length_drop, List.length_drop]; omega)
      (by rw [List.length_drop, List.length_drop]; omega)]
  simp [h]

/-! ## C3: layout and round trip of the stored-block stream -/

/-- C3: for every non-empty byte sequence, both stored-block writers (the one
in `write_zlib_uncompressed`, after its two header bytes, and the inline loop
of `stbi_write_png`) emit the same stream of exactly `ceil(len / 65535)`
stored blocks: each is a header byte with BTYPE = 00, LEN and
NLEN = LEN xor 0xFFFF as 16-bit values, then LEN raw bytes with
`1 ≤ LEN ≤ 65535`; only the last block has BFINAL = 1; the payloads
concatenated are the input, and on a little-endian host the stored-block
decoder returns exactly the input. Inputs of 65536 bytes give blocks of 65535
and 1 bytes, inputs of 131071 bytes give 65535, 65535 and 1. -/
theorem stored_blocks_layout (le : Bool) (data : List Nat) (hne : data ≠ []) :
    ∃ blocks : List (List Nat),
      write_zlib_uncompressed le data = [0x78, 0x01] ++ stored_stream le blocks ∧
      png_block_loop le data 0 data.length = stored_stream le blocks ∧
      blocks.length = (data.length + 65534) / 65535 ∧
      (∀ p ∈ blocks, 1 ≤ p.length ∧ p.length ≤ 65535) ∧
      blocks.flatten = data ∧
      inflate_stored_all ((write_zlib_uncompressed true data).drop 2) = some data ∧
      inflate_stored_all (png_block_loop true data 0 data.length) = some data ∧
      (data.length = 65536 → blocks.map List.length = [65535, 1]) ∧
      (data.length = 131071 → blocks.map List.length = [65535, 65535, 1]) := by
  have hpos : 0 < data.length := List.length_pos.mpr hne
  obtain ⟨hflat, hcount, hsize, _⟩ := split_blocks_props data.length data rfl hpos
  have hz : ∀ e, zlib_block_loop e data data.length 0 = stored_stream e (split_blocks data) :=
    fun e => zlib_block_loop_eq e data data.length 0 (by omega) hpos
  have hp : ∀ e, png_block_loop e data 0 data.length = stored_stream e (split_blocks data) :=
    fun e => png_block_loop_eq e data data.length 0 (by omega) hpos
  have hdec : inflate_stored_all (stored_stream true (split_blocks data)) = some data := by
    rw [inflate_stored_all_stream _ (split_blocks_ne_nil data hpos) (fun p h => (hsize p h).2),
      hflat]
  refine ⟨split_blocks data, ?_, hp le, hcount, hsize, hflat, ?_, ?_,
    split_blocks_65536 data, split_blocks_131071 data⟩
  · unfold write_zlib_uncompressed
    rw [hz le]
  · unfold write_zlib_uncompressed
    rw [hz true]
    exact hdec
  · rw [hp true]
    exact hdec

/-- C3 at a concrete input: the three bytes 7, 8, 9 on a little-endian host. -/
theorem stored_blocks_layout_witness :
    [7, 8, 9] ≠ [] ∧
    ∃ blocks : List (List Nat),
      write_zlib_uncompressed true [7, 8, 9] = [0x78, 0x01] ++ stored_stream true blocks ∧
      png_block_loop true [7, 8, 9] 0 [7, 8, 9].length = stored_stream true blocks ∧
      blocks.length = ([7, 8, 9].length + 65534) / 65535 ∧
      (∀ p ∈ blocks, 1 ≤ p.length ∧ p.length ≤ 65535) ∧
      blocks.flatten = [7, 8, 9] ∧
      inflate_stored_all ((write_zlib_uncompressed true [7, 8, 9]).drop 2) = some [7, 8, 9] ∧
      inflate_stored_all (png_block_loop true [7, 8, 9] 0 [7, 8, 9].length) = some [7, 8, 9] ∧
      ([7, 8, 9].length = 65536 → blocks.map List.length = [65535, 1]) ∧
      ([7, 8, 9].length = 131071 → blocks.map List.length = [65535, 65535, 1]) :=
  ⟨by decide, stored_blocks_layout true [7, 8, 9] (by decide)⟩

/-! ## C4: the empty input -/

/-- C4 (evaluation of the code): for the empty byte sequence neither loop
writes a block: `write_zlib_uncompressed` emits only its two header bytes and
the inline loop of `stbi_write_png` emits nothing, and the stored-block decoder
rejects the empty block stream. -/
theorem empty_input_writes_no_block (le : Bool) :
    write_zlib_uncompressed le [] = [0x78, 0x01] ∧
    png_block_loop le [] 0 0 = [] ∧
    inflate_stored_all ((write_zlib_uncompressed le []).drop 2) = none ∧
    inflate_stored_all (png_block_loop le [] 0 0) = none := by
  have hz : zlib_block_loop le [] 0 0 = [] := by rw [zlib_block_loop, if_neg (by omega)]
  have hp : png_block_loop le [] 0 0 = [] := by rw [png_block_loop, if_neg (by omega)]
  have hw : write_zlib_uncompressed le [] = [0x78, 0x01] := by
    unfold write_zlib_uncompressed
    rw [List.length_nil, hz]
    rfl
  refine ⟨hw, hp, ?_, ?_⟩
  · rw [hw]; rfl
  · rw [hp]; rfl

/-! ## Lemmas on the Adler-32 loop -/

theorem adler_loop_snoc (pre : List Nat) (b : Nat) :
    adler_loop (pre ++ [b]) =
      ((((adler_loop pre).1 + b) % 2 ^ 32) % 65521,
        (((adler_loop pre).2 + (((adler_loop pre).1 + b) % 2 ^ 32) % 65521) % 2 ^ 32) % 65521) := by
  unfold adler_loop
  rw [List.foldl_append]
  rfl

theorem adler_sum1_snoc (pre : List Nat) (b : Nat) :
    adler_sum1 (pre ++ [b]) = adler_sum1 pre + b := by
  unfold adler_sum1
  rw [List.sum_append, List.sum_singleton, Nat.add_assoc]

theorem adler_sum2_snoc (pre : List Nat) (b : Nat) :
    adler_sum2 (pre ++ [b]) = adler_sum2 pre + adler_sum1 (pre ++ [b]) := by
  unfold adler_sum2
  rw [List.length_append, List.length_singleton, List.range_succ, List.map_append,
    List.sum_append, List.map_singleton, List.sum_singleton]
  congr 1
  · congr 1
    apply List.map_congr_left
    intro k hk
    rw [List.take_append_of_le_length (by have := List.mem_range.mp hk; omega)]
  · rw [List.take_of_length_le (by simp)]

theorem adler_loop_bound (out : List Nat) :
    (adler_loop out).1 < 65521 ∧ (adler_loop out).2 < 65521 := by
  induction out using List.reverseRecOn with
  | nil => decide
  | append_singleton pre b _ =>
    rw [adler_loop_snoc]
    exact ⟨Nat.mod_lt _ (by decide), Nat.mod_lt _ (by decide)⟩

theorem adler_loop_eq (out : List Nat) (hb : ∀ b ∈ out, b < 256) :
    adler_loop out = (adler_sum1 out % 65521, adler_sum2 out % 65521) := by
  induction out using List.reverseRecOn with
  | nil => decide
  | append_singleton pre b ih =>
    have hpre : ∀ x ∈ pre, x < 256 := fun x hx => hb x (List.mem_append_left _ hx)
    have hbb : b < 256 := hb b (List.mem_append_right _ (List.mem_singleton_self b))
    have h := ih hpre
    have hbd := adler_loop_bound pre
    rw [adler_loop_snoc, adler_sum2_snoc, adler_sum1_snoc]
    have e1 : (adler_loop pre).1 = adler_sum1 pre % 65521 := by rw [h]
    have e2 : (adler_loop pre).2 = adler_sum2 pre % 65521 := by rw [h]
    rw [Nat.mod_eq_of_lt (show (adler_loop pre).1 + b < 2 ^ 32 by omega)]
    rw [Nat.mod_eq_of_lt (show (adler_loop pre).2 + ((adler_loop pre).1 + b) % 65521 < 2 ^ 32 by
      have := Nat.mod_lt ((adler_loop pre).1 + b) (show 0 < 65521 by decide)
      omega)]
    rw [e1, e2]
    congr 1
    · omega
    · omega

/-! ## C5: the checksum loop of `stbi_write_png` is Adler-32 -/

/-- C5: for every byte sequence `out`, the value `adler` computed in
`stbi_write_png` is `(s2 << 16) | s1` with `s1 = (1 + sum of the bytes) mod
65521` and `s2 = (sum over every prefix of the running s1) mod 65521`, the
reference Adler-32 of `out`; and no intermediate value leaves 32 bits: at
every loop step both sums `s1 + out[i]` and `s2 + s1` are below `2 ^ 32`, and
so are the final shift `s2 << 16` and the result. -/
theorem png_adler_is_adler32 (out : List Nat) (hb : ∀ b ∈ out, b < 256) :
    png_adler out = adler32_ref out ∧
    (∀ pre b rest, out = pre ++ b :: rest →
      (adler_loop pre).1 + b < 2 ^ 32 ∧
      (adler_loop pre).2 + ((adler_loop pre).1 + b) % 65521 < 2 ^ 32) ∧
    (adler_loop out).2 <<< 16 < 2 ^ 32 ∧
    png_adler out < 2 ^ 32 := by
  have hbd := adler_loop_bound out
  have hsh : (adler_loop out).2 <<< 16 < 2 ^ 32 := by
    rw [Nat.shiftLeft_eq]; omega
  have heq := adler_loop_eq out hb
  refine ⟨?_, ?_, hsh, ?_⟩
  · unfold png_adler adler32_ref
    rw [Nat.mod_eq_of_lt hsh, heq]
  · intro pre b rest hsplit
    have hbb : b < 256 := hb b (by rw [hsplit]; simp)
    have hp := adler_loop_bound pre
    have := Nat.mod_lt ((adler_loop pre).1 + b) (show 0 < 65521 by decide)
    omega
  · unfold png_adler
    rw [Nat.mod_eq_of_lt hsh]
    exact Nat.or_lt_two_pow hsh (by omega)

/-- C5 at a concrete input: the ASCII bytes of "Wikipedia". -/
theorem png_adler_is_adler32_witness :
    (∀ b ∈ [87, 105, 107, 105, 112, 101, 100, 105, 97], b < 256) ∧
    (png_adler [87, 105, 107, 105, 112, 101, 100, 105, 97] =
        adler32_ref [87, 105, 107, 105, 112, 101, 100, 105, 97] ∧
      (∀ pre b rest, [87, 105, 107, 105, 112, 101, 100, 105, 97] = pre ++ b :: rest →
        (adler_loop pre).1 + b < 2 ^ 32 ∧
        (adler_loop pre).2 + ((adler_loop pre).1 + b) % 65521 < 2 ^ 32) ∧
      (adler_loop [87, 105, 107, 105, 112, 101, 100, 105, 97]).2 <<< 16 < 2 ^ 32 ∧
      png_adler [87, 105, 107, 105, 112, 101, 100, 105, 97] < 2 ^ 32) :=
  ⟨by decide, png_adler_is_adler32 [87, 105, 107, 105, 112, 101, 100, 105, 97] (by decide)⟩

/-! ## Lemmas on the PNG writer -/

theorem update_crc_ref (t : List Nat) (ht : crc_table_state t) (c : Nat) (buf : List Nat)
    (hb : ∀ b ∈ buf, b < 256) :
    update_crc t c buf = (buf.foldl crc32_ref_byte c, make_crc_table crc_table_init) := by
  rw [update_crc_of_state t ht,
    update_crc_loop_filled crc_table_init (List.length_replicate 256 0) buf hb]

theorem png_ihdr_crc_ref (t : List Nat) (ht : crc_table_state t) (ihdr : List Nat)
    (hb : ∀ b ∈ ihdr, b < 256) :
    png_ihdr_crc t ihdr =
      (ihdr.foldl crc32_ref_byte (tag_IHDR.foldl crc32_ref_byte 0xffffffff ^^^ 0xffffffff)
          ^^^ 0xffffffff,
        make_crc_table crc_table_init) := by
  unfold png_ihdr_crc
  simp only
  rw [update_crc_ref t ht _ tag_IHDR (by decide)]
  simp only
  rw [update_crc_ref _ (Or.inr rfl) _ ihdr hb]

theorem png_copy_loop_eq (n : Nat) : ∀ tmp : List Nat, tmp.length = n → png_copy_loop tmp = tmp := by
  induction n using Nat.strong_induction_on with
  | _ n ih =>
    intro tmp hn
    rw [png_copy_loop]
    by_cases h0 : tmp.length = 0
    · rw [if_pos h0]
      exact (List.length_eq_zero.mp h0).symm
    · rw [if_neg h0, ih (tmp.drop 4096).length (by rw [List.length_drop]; omega) _ rfl,
        List.take_append_drop]

theorem png_block_loop_length (le : Bool) (out : List Nat) :
    (png_block_loop le out 0 out.length).length =
      5 * ((out.length + 65534) / 65535) + out.length := by
  by_cases h0 : out.length = 0
  · rw [h0, png_block_loop, if_neg (by omega)]
    rfl
  · have hpos : 0 < out.length := by omega
    obtain ⟨hflat, hcount, _, _⟩ := split_blocks_props out.length out rfl hpos
    rw [png_block_loop_eq le out out.length 0 (by omega) hpos, List.drop_zero,
      stored_stream_length, hcount, hflat]

theorem png_tmp_length (le : Bool) (out : List Nat) :
    (png_tmp le out).length = 2 + 5 * ((out.length + 65534) / 65535) + out.length + 4 := by
  unfold png_tmp write32
  simp only [List.length_append, List.length_cons, List.length_nil, png_block_loop_length]
  omega

theorem png_out_length (data : List Nat) (w h comp stride : Int) :
    (png_out data w h comp stride).length = (png_out_len w h comp).toNat := by
  unfold png_out
  rw [List.length_map, List.length_range]

theorem png_out_len_lt (w h comp : Int) : (png_out_len w h comp).toNat < 2 ^ 31 := by
  unfold png_out_len int32
  omega

/-- The file written by a call in which the file opens and both allocations
and the temporary stream succeed. -/
theorem stbi_write_png_file_ok (env : PngEnv) (t : List Nat) (w h comp : Int)
    (data : List Nat) (stride : Int)
    (h1 : env.filename_null = false) (h2 : env.fopen_ok = true)
    (h3 : env.malloc_out_ok = true) (h4 : env.malloc_zbuf_ok = true)
    (h5 : env.tmpfile_ok = true) :
    (stbi_write_png env t w h comp data stride).file =
      some (png_head w h comp (png_ihdr_crc t (png_ihdr w h comp)).1 ++
        write_uint32_be (png_tmp env.little_endian (png_out data w h comp stride)).length ++
        tag_IDAT ++ png_tmp env.little_endian (png_out data w h comp stride)) := by
  unfold stbi_write_png
  simp only [h1, h2, h3, h4, h5, Bool.not_true, Bool.false_eq_true, if_false]
  rw [png_copy_loop_eq _ _ rfl, Nat.mod_eq_of_lt]
  rw [png_tmp_length, png_out_length]
  have := png_out_len_lt w h comp
  omega

/-- The file written by a call in which the file opens but an allocation or
the temporary stream fails. -/
theorem stbi_write_png_file_fail (env : PngEnv) (t : List Nat) (w h comp : Int)
    (data : List Nat) (stride : Int)
    (h1 : env.filename_null = false) (h2 : env.fopen_ok = true)
    (h3 : (env.malloc_out_ok && env.malloc_zbuf_ok && env.tmpfile_ok) = false) :
    (stbi_write_png env t w h comp data stride).file =
      some (png_head w h comp (png_ihdr_crc t (png_ihdr w h comp)).1) := by
  unfold stbi_write_png
  simp only [h1, h2, Bool.not_true, Bool.false_eq_true, if_false]
  cases ha : env.malloc_out_ok <;> cases hb : env.malloc_zbuf_ok <;>
    cases hc : env.tmpfile_ok <;> simp_all

theorem png_ihdr_1_1_3 : png_ihdr 1 1 3 = [0, 0, 0, 1, 0, 0, 0, 1, 8, 2, 0, 0, 0] := by
  decide

set_option maxRecDepth 100000 in
theorem png_ihdr_crc_1_1_3 : (png_ihdr_crc crc_table_init (png_ihdr 1 1 3)).1 = 0x60FCEAA3 := by
  rw [png_ihdr_crc_ref crc_table_init (Or.inl rfl) _ (by rw [png_ihdr_1_1_3]; decide),
    png_ihdr_1_1_3]
  decide

set_option maxRecDepth 100000 in
theorem crc_ihdr_1_1_3 : (crc crc_table_init (tag_IHDR ++ png_ihdr 1 1 3)).1 = 0x907753DE := by
  rw [crc_eq_ref crc_table_init (Or.inl rfl) _ (by rw [png_ihdr_1_1_3]; decide),
    png_ihdr_1_1_3]
  decide

/-! ## C2: the CRC field of the header chunk -/

/-- C2 (evaluation of the code): for a 1x1 RGB image (`w = 1`, `h = 1`,
`comp = 3`), starting from the untouched table, the CRC field that
`stbi_write_png` writes after the IHDR payload is 0x60FCEAA3, the bytes
60 FC EA A3 at file offset 29, while the CRC-32 of the 17 bytes "IHDR"
followed by the payload is 0x907753DE. -/
theorem ihdr_crc_field_mismatch :
    (png_ihdr_crc crc_table_init (png_ihdr 1 1 3)).1 = 0x60FCEAA3 ∧
    (crc crc_table_init (tag_IHDR ++ png_ihdr 1 1 3)).1 = 0x907753DE ∧
    (tag_IHDR ++ png_ihdr 1 1 3).length = 17 ∧
    ((stbi_write_png ⟨false, true, true, true, true, true⟩ crc_table_init 1 1 3
        [10, 20, 30] 3).file.map (fun f => (f.drop 29).take 4)) = some [0x60, 0xFC, 0xEA, 0xA3] := by
  refine ⟨png_ihdr_crc_1_1_3, crc_ihdr_1_1_3, by rw [png_ihdr_1_1_3]; rfl, ?_⟩
  rw [stbi_write_png_file_ok _ _ _ _ _ _ _ rfl rfl rfl rfl rfl, png_ihdr_crc_1_1_3]
  simp only [png_head, png_ihdr_1_1_3, Option.map_some', List.append_assoc]
  rfl

/-! ## The file written for a 1x1 grayscale image -/

theorem png_tmp_two_zero : png_tmp true [0, 0] = [120, 1, 1, 2, 0, 253, 255, 0, 0, 1, 0, 2, 0] := by
  unfold png_tmp
  rw [png_block_loop_eq true [0, 0] [0, 0].length 0 rfl (by decide), List.drop_zero,
    split_blocks_small [0, 0] (by decide) (by decide)]
  decide

set_option maxRecDepth 100000 in
theorem png_file_1_1_1 :
    (stbi_write_png ⟨false, true, true, true, true, true⟩ crc_table_init 1 1 1 [0] 1).file =
      some [137, 80, 78, 71, 13, 10, 26, 10, 0, 0, 0, 13, 73, 72, 68, 82, 0, 0, 0, 1, 0, 0, 0, 1,
        8, 0, 0, 0, 0, 202, 245, 34, 40, 0, 0, 0, 13, 73, 68, 65, 84, 120, 1, 1, 2, 0, 253, 255,
        0, 0, 1, 0, 2, 0] := by
  have hi : png_ihdr 1 1 1 = [0, 0, 0, 1, 0, 0, 0, 1, 8, 0, 0, 0, 0] := by decide
  have hcrc : (png_ihdr_crc crc_table_init (png_ihdr 1 1 1)).1 = 0xCAF52228 := by
    rw [png_ihdr_crc_ref crc_table_init (Or.inl rfl) _ (by rw [hi]; decide), hi]
    decide
  have hout : png_out [0] 1 1 1 1 = [0, 0] := by decide
  rw [stbi_write_png_file_ok _ _ _ _ _ _ _ rfl rfl rfl rfl rfl, hcrc, hout, png_tmp_two_zero]
  simp only [png_head, hi]
  decide

/-! ## C6: chunk framing -/

/-- C6 (as stated, refuted): for the 1x1 grayscale image with the single
pixel 0, the file does not contain, after the 33 bytes of signature and header
chunk, a data chunk framed as length, "IDAT", payload and the CRC-32 of
"IDAT" followed by the payload. -/
theorem idat_chunk_has_no_crc :
    ¬ ∃ head payload rest : List Nat, head.length = 33 ∧
      (stbi_write_png ⟨false, true, true, true, true, true⟩ crc_table_init 1 1 1 [0] 1).file =
        some (head ++ (write_uint32_be payload.length ++ (tag_IDAT ++ (payload ++
          (write_uint32_be (crc32_ref (tag_IDAT ++ payload)) ++ rest))))) := by
  rintro ⟨head, payload, rest, hl, hf⟩
  rw [png_file_1_1_1] at hf
  have hf := Option.some.inj hf
  have hlen := congrArg List.length hf
  simp only [List.length_append, List.length_cons, List.length_nil, write_uint32_be, tag_IDAT,
    hl] at hlen
  have hfield := congrArg (fun l => (l.drop 33).take 4) hf
  simp only [List.drop_left' hl] at hfield
  have hw : (write_uint32_be payload.length).length = 4 := rfl
  rw [List.take_left' hw] at hfield
  have hp : payload.length ≤ 9 := by omega
  generalize payload.length = n at hfield hp
  interval_cases n <;> exact absurd hfield (by decide)

/-- C6 (amended): when the file opens and both allocations and the temporary
stream succeed, the file is the signature, then the header chunk written as
big-endian length 13, "IHDR", the 13 payload bytes and a 4-byte CRC field,
then the data chunk written as big-endian length, "IDAT" and the payload,
where the length field holds the number of payload bytes,
`2 + 5 * (number of stored blocks) + out_len + 4`; the file ends with the
payload, no CRC follows it. -/
theorem png_chunk_framing (env : PngEnv) (t : List Nat) (w h comp : Int)
    (data : List Nat) (stride : Int)
    (h1 : env.filename_null = false) (h2 : env.fopen_ok = true)
    (h3 : env.malloc_out_ok = true) (h4 : env.malloc_zbuf_ok = true)
    (h5 : env.tmpfile_ok = true) :
    ∃ crc_field payload : List Nat,
      (stbi_write_png env t w h comp data stride).file =
        some (png_sig ++ (write_uint32_be 13 ++ tag_IHDR ++ png_ihdr w h comp ++ crc_field) ++
          (write_uint32_be payload.length ++ tag_IDAT ++ payload)) ∧
      (png_ihdr w h comp).length = 13 ∧
      crc_field.length = 4 ∧
      payload.length = 2 + 5 * (((png_out_len w h comp).toNat + 65534) / 65535) +
        (png_out_len w h comp).toNat + 4 ∧
      payload.length < 2 ^ 32 := by
  refine ⟨write_uint32_be (png_ihdr_crc t (png_ihdr w h comp)).1,
    png_tmp env.little_endian (png_out data w h comp stride), ?_, rfl, rfl, ?_, ?_⟩
  · rw [stbi_write_png_file_ok env t w h comp data stride h1 h2 h3 h4 h5]
    simp only [png_head, List.append_assoc]
  · rw [png_tmp_length, png_out_length]
  · rw [png_tmp_length, png_out_length]
    have := png_out_len_lt w h comp
    omega

/-- C6 (amended) at a concrete input: a 2x1 RGB image on a little-endian
host, every step succeeding. -/
theorem png_chunk_framing_witness :
    ∃ crc_field payload : List Nat,
      (stbi_write_png ⟨false, true, true, true, true, true⟩ crc_table_init 2 1 3
          [1, 2, 3, 4, 5, 6] 6).file =
        some (png_sig ++ (write_uint32_be 13 ++ tag_IHDR ++ png_ihdr 2 1 3 ++ crc_field) ++
          (write_uint32_be payload.length ++ tag_IDAT ++ payload)) ∧
      (png_ihdr 2 1 3).length = 13 ∧
      crc_field.length = 4 ∧
      payload.length = 2 + 5 * (((png_out_len 2 1 3).toNat + 65534) / 65535) +
        (png_out_len 2 1 3).toNat + 4 ∧
      payload.length < 2 ^ 32 :=
  png_chunk_framing ⟨false, true, true, true, true, true⟩ crc_table_init 2 1 3
    [1, 2, 3, 4, 5, 6] 6 rfl rfl rfl rfl rfl

/-! ## C7: start and end of the file -/

/-- C7 (as stated, refuted): for the 1x1 grayscale image with the single
pixel 0 the output file opens, and the bytes written do not end with an end
chunk (length 0, "IEND", empty payload, 4 CRC bytes). -/
theorem png_file_has_no_end_chunk :
    ¬ ∃ before crc_field : List Nat, crc_field.length = 4 ∧
      (stbi_write_png ⟨false, true, true, true, true, true⟩ crc_table_init 1 1 1 [0] 1).file =
        some (before ++ ([0, 0, 0, 0, 73, 69, 78, 68] ++ crc_field)) := by
  rintro ⟨before, crc_field, hl, hf⟩
  rw [png_file_1_1_1] at hf
  have hf := Option.some.inj hf
  have hlen := congrArg List.length hf
  simp only [List.length_append, List.length_cons, List.length_nil, hl] at hlen
  have hb : before.length = 42 := by omega
  have hfield := congrArg (fun l => (l.drop 42).take 8) hf
  simp only [List.drop_left' hb] at hfield
  rw [List.take_left' (show [0, 0, 0, 0, 73, 69, 78, 68].length = 8 from rfl)] at hfield
  exact absurd hfield (by decide)

/-- C7 (amended): whenever the output file opens, the bytes written begin
with the 8-byte signature 137 80 78 71 13 10 26 10 followed by the header
chunk written as length 13, "IHDR", the 13 payload bytes and a 4-byte CRC
field. When both allocations and the temporary stream succeed, the data chunk
(length, "IDAT", payload made of the zlib header, the stored blocks and the
four checksum bytes) follows and the file ends with that payload; otherwise
the file ends after the header chunk. No end chunk is written. -/
theorem png_file_shape (env : PngEnv) (t : List Nat) (w h comp : Int)
    (data : List Nat) (stride : Int)
    (h1 : env.filename_null = false) (h2 : env.fopen_ok = true) :
    ∃ crc_field rest : List Nat,
      (stbi_write_png env t w h comp data stride).file =
        some ([137, 80, 78, 71, 13, 10, 26, 10] ++ [0, 0, 0, 13] ++ [73, 72, 68, 82] ++
          png_ihdr w h comp ++ crc_field ++ rest) ∧
      crc_field.length = 4 ∧
      ((env.malloc_out_ok && env.malloc_zbuf_ok && env.tmpfile_ok) = true →
        rest = write_uint32_be (png_tmp env.little_endian
            (png_out data w h comp stride)).length ++ [73, 68, 65, 84] ++
          ([0x78, 0x01] ++
            png_block_loop env.little_endian (png_out data w h comp stride) 0
              (png_out data w h comp stride).length ++
            write32 (png_adler (png_out data w h comp stride)))) ∧
      ((env.malloc_out_ok && env.malloc_zbuf_ok && env.tmpfile_ok) = false → rest = []) := by
  cases hall : (env.malloc_out_ok && env.malloc_zbuf_ok && env.tmpfile_ok)
  · refine ⟨write_uint32_be (png_ihdr_crc t (png_ihdr w h comp)).1, [], ?_, rfl, ?_, ?_⟩
    · rw [stbi_write_png_file_fail env t w h comp data stride h1 h2 hall]
      simp only [png_head, List.append_nil]
      rfl
    · intro hc; exact absurd hc (by decide)
    · intro _; rfl
  · simp only [Bool.and_eq_true] at hall
    obtain ⟨⟨h3, h4⟩, h5⟩ := hall
    refine ⟨write_uint32_be (png_ihdr_crc t (png_ihdr w h comp)).1,
      write_uint32_be (png_tmp env.little_endian (png_out data w h comp stride)).length ++
        [73, 68, 65, 84] ++ ([0x78, 0x01] ++
          png_block_loop env.little_endian (png_out data w h comp stride) 0
            (png_out data w h comp stride).length ++
          write32 (png_adler (png_out data w h comp stride))), ?_, rfl, ?_, ?_⟩
    · rw [stbi_write_png_file_ok env t w h comp data stride h1 h2 h3 h4 h5]
      simp only [png_head, List.append_assoc]
      rfl
    · intro _; rfl
    · intro hc; exact absurd hc (by decide)

/-- C7 (amended) at a concrete input: a 2x1 RGB image, every step
succeeding. -/
theorem png_file_shape_witness :
    ∃ crc_field rest : List Nat,
      (stbi_write_png ⟨false, true, true, true, true, true⟩ crc_table_init 2 1 3
          [1, 2, 3, 4, 5, 6] 6).file =
        some ([137, 80, 78, 71, 13, 10, 26, 10] ++ [0, 0, 0, 13] ++ [73, 72, 68, 82] ++
          png_ihdr 2 1 3 ++ crc_field ++ rest) ∧
      crc_field.length = 4 ∧
      ((true && true && true) = true →
        rest = write_uint32_be (png_tmp true (png_out [1, 2, 3, 4, 5, 6] 2 1 3 6)).length ++
            [73, 68, 65, 84] ++
          ([0x78, 0x01] ++
            png_block_loop true (png_out [1, 2, 3, 4, 5, 6] 2 1 3 6) 0
              (png_out [1, 2, 3, 4, 5, 6] 2 1 3 6).length ++
            write32 (png_adler (png_out [1, 2, 3, 4, 5, 6] 2 1 3 6)))) ∧
      ((true && true && true) = false → rest = []) :=
  png_file_shape ⟨false, true, true, true, true, true⟩ crc_table_init 2 1 3
    [1, 2, 3, 4, 5, 6] 6 rfl rfl

/-! ## C8: the header chunk payload -/

theorem low_byte_shift (x : Int) (k : Nat) (hx : 0 ≤ x) :
    low_byte (x >>> k) = (x.toNat / 2 ^ k) % 256 := by
  unfold low_byte
  rw [Int.shiftRight_eq_div_pow]
  obtain ⟨n, rfl⟩ := Int.eq_ofNat_of_zero_le hx
  simp only [Int.toNat_ofNat]
  norm_cast

/-- C8: for `w > 0`, `h > 0` (both within the range of `int`) and `comp` in
{1, 3, 4}, the 13-byte header payload is the width as four big-endian bytes,
the height as four big-endian bytes, bit depth 8, colour type 0 for
`comp = 1`, 2 for `comp = 3` and 6 for `comp = 4`, then compression 0, filter
method 0 and interlace 0. -/
theorem png_ihdr_layout (w h comp : Int) (hw : 0 < w) (hw2 : w < 2 ^ 31) (hh : 0 < h)
    (hh2 : h < 2 ^ 31) :
    ∃ a0 a1 a2 a3 b0 b1 b2 b3 ct : Nat,
      png_ihdr w h comp = [a0, a1, a2, a3, b0, b1, b2, b3, 8, ct, 0, 0, 0] ∧
      (a0 < 256 ∧ a1 < 256 ∧ a2 < 256 ∧ a3 < 256) ∧
      (b0 < 256 ∧ b1 < 256 ∧ b2 < 256 ∧ b3 < 256) ∧
      ((a0 * 2 ^ 24 + a1 * 2 ^ 16 + a2 * 2 ^ 8 + a3 : Nat) : Int) = w ∧
      ((b0 * 2 ^ 24 + b1 * 2 ^ 16 + b2 * 2 ^ 8 + b3 : Nat) : Int) = h ∧
      (comp = 1 → ct = 0) ∧ (comp = 3 → ct = 2) ∧ (comp = 4 → ct = 6) := by
  refine ⟨_, _, _, _, _, _, _, _, color_type comp, rfl, ?_, ?_, ?_, ?_, ?_, ?_, ?_⟩
  · simp only [low_byte_shift w _ (le_of_lt hw)]
    omega
  · simp only [low_byte_shift h _ (le_of_lt hh)]
    omega
  · simp only [low_byte_shift w _ (le_of_lt hw)]
    omega
  · simp only [low_byte_shift h _ (le_of_lt hh)]
    omega
  · intro h1; rw [h1]; rfl
  · intro h1; rw [h1]; rfl
  · intro h1; rw [h1]; rfl

/-- C8 at a concrete input: a 640x480 RGBA image. -/
theorem png_ihdr_layout_witness :
    ∃ a0 a1 a2 a3 b0 b1 b2 b3 ct : Nat,
      png_ihdr 640 480 4 = [a0, a1, a2, a3, b0, b1, b2, b3, 8, ct, 0, 0, 0] ∧
      (a0 < 256 ∧ a1 < 256 ∧ a2 < 256 ∧ a3 < 256) ∧
      (b0 < 256 ∧ b1 < 256 ∧ b2 < 256 ∧ b3 < 256) ∧
      ((a0 * 2 ^ 24 + a1 * 2 ^ 16 + a2 * 2 ^ 8 + a3 : Nat) : Int) = 640 ∧
      ((b0 * 2 ^ 24 + b1 * 2 ^ 16 + b2 * 2 ^ 8 + b3 : Nat) : Int) = 480 ∧
      ((4 : Int) = 1 → ct = 0) ∧ ((4 : Int) = 3 → ct = 2) ∧ ((4 : Int) = 4 → ct = 6) :=
  png_ihdr_layout 640 480 4 (by decide) (by decide) (by decide) (by decide)

/-! ## C9: the return value -/

/-- C9: `stbi_write_png` returns 0 for every input and every behaviour of the
environment: when the filename is null, when the file or the temporary stream
cannot be opened, when an allocation fails, and when every step succeeds. -/
theorem stbi_write_png_returns_zero (env : PngEnv) (t : List Nat) (w h comp : Int)
    (data : List Nat) (stride : Int) :
    (stbi_write_png env t w h comp data stride).ret = 0 := by
  unfold stbi_write_png
  split_ifs <;> rfl

/-! ## C10: `write_uint32_be` -/

theorem shift_and_ff (x k : Nat) : (x >>> k) &&& 0xff = (x / 2 ^ k) % 256 := by
  rw [Nat.shiftRight_eq_div_pow]
  exact Nat.and_pow_two_sub_one_eq_mod _ 8

/-- C10: for every 32-bit unsigned `x`, `write_uint32_be` emits exactly four
bytes `b0 b1 b2 b3`, most significant first, with
`b0 * 2^24 + b1 * 2^16 + b2 * 2^8 + b3 = x`. -/
theorem write_uint32_be_big_endian (x : Nat) (hx : x < 2 ^ 32) :
    ∃ b0 b1 b2 b3 : Nat,
      write_uint32_be x = [b0, b1, b2, b3] ∧
      b0 < 256 ∧ b1 < 256 ∧ b2 < 256 ∧ b3 < 256 ∧
      b0 * 2 ^ 24 + b1 * 2 ^ 16 + b2 * 2 ^ 8 + b3 = x := by
  have h3 : x &&& 0xff = x % 256 := Nat.and_pow_two_sub_one_eq_mod x 8
  refine ⟨_, _, _, _, rfl, ?_, ?_, ?_, ?_, ?_⟩ <;>
    simp only [shift_and_ff, h3] <;> omega

/-- C10 at a concrete input: `x = 0x12345678` is written as 12 34 56 78. -/
theorem write_uint32_be_big_endian_witness :
    0x12345678 < 2 ^ 32 ∧
    ∃ b0 b1 b2 b3 : Nat,
      write_uint32_be 0x12345678 = [b0, b1, b2, b3] ∧
      b0 < 256 ∧ b1 < 256 ∧ b2 < 256 ∧ b3 < 256 ∧
      b0 * 2 ^ 24 + b1 * 2 ^ 16 + b2 * 2 ^ 8 + b3 = 0x12345678 :=
  ⟨by decide, write_uint32_be_big_endian 0x12345678 (by decide)⟩

/-! ## Lemmas on buffers made of equally long rows -/

theorem flatten_map_length {α : Type} (f : Nat → List α) (k : Nat)
    (hf : ∀ i, (f i).length = k) (ys : List Nat) :
    ((ys.map f).flatten).length = ys.length * k := by
  induction ys with
  | nil => simp
  | cons y rest ih =>
    rw [List.map_cons, List.flatten_cons, List.length_append, ih, hf, List.length_cons]
    ring

theorem flatten_range_slice {α : Type} (f : Nat → List α) (k : Nat)
    (hf : ∀ i, (f i).length = k) (n y : Nat) (hy : y < n) :
    ((((List.range n).map f).flatten).drop (y * k)).take k = f y := by
  induction n with
  | zero => omega
  | succ n ih =>
    have hlen : (((List.range n).map f).flatten).length = n * k := by
      rw [flatten_map_length f k hf, List.length_range]
    rw [List.range_succ, List.map_append, List.flatten_append, List.map_singleton,
      List.flatten_singleton]
    by_cases hyn : y < n
    · have hle : y * k + k ≤ n * k := by
        have : (y + 1) * k ≤ n * k := Nat.mul_le_mul_right k hyn
        rw [Nat.add_mul, Nat.one_mul] at this
        exact this
      rw [List.drop_append_of_le_length (by rw [hlen]; omega),
        List.take_append_of_le_length (by rw [List.length_drop, hlen]; omega)]
      exact ih hyn
    · have hyeq : y = n := by omega
      subst hyeq
      rw [List.drop_left' hlen, ← hf y, List.take_length]

theorem map_getD_range (l : List Nat) :
    (List.range l.length).map (fun i => l.getD i 0) = l := by
  apply List.ext_getElem
  · rw [List.length_map, List.length_range]
  · intro i h1 h2
    rw [List.getElem_map, List.getElem_range, List.getD_eq_getElem?_getD,
      List.getElem?_eq_getElem h2, Option.getD_some]

theorem int32_of_range (x : Int) (h0 : 0 ≤ x) (h1 : x < 2 ^ 31) : int32 x = x := by
  unfold int32
  omega

theorem png_row_length (data : List Nat) (rowbytes stride : Int) (y : Nat) :
    (png_row data rowbytes stride y).length = rowbytes.toNat + 1 := by
  unfold png_row
  rw [List.length_cons, List.length_map, List.length_range]

theorem png_row_tail (data : List Nat) (rowbytes stride : Int) (y : Nat)
    (hs : 0 ≤ stride) (hfit : ((y : Int) * stride).toNat + rowbytes.toNat ≤ data.length) :
    (png_row data rowbytes stride y).tail =
      (data.drop ((y : Int) * stride).toNat).take rowbytes.toNat := by
  have hnn : 0 ≤ (y : Int) * stride := Int.mul_nonneg (Int.ofNat_nonneg y) hs
  unfold png_row
  rw [List.tail_cons]
  apply List.ext_getElem
  · rw [List.length_map, List.length_range, List.length_take, List.length_drop]
    omega
  · intro i h1 h2
    rw [List.length_map, List.length_range] at h1
    rw [List.getElem_map, List.getElem_range, List.getElem_take, List.getElem_drop]
    unfold mem_read
    have hidx : ((y : Int) * stride + (i : Int)).toNat = ((y : Int) * stride).toNat + i := by
      omega
    rw [if_neg (by omega), hidx, List.getD_eq_getElem?_getD,
      List.getElem?_eq_getElem (by omega), Option.getD_some]

theorem png_out_len_of_fit (w h comp : Nat) (hh : 0 < h) (hfit : (comp * w + 1) * h < 2 ^ 31) :
    int32 ((comp : Int) * (w : Int)) = ((comp * w : Nat) : Int) ∧
      png_out_len w h comp = (((comp * w + 1) * h : Nat) : Int) := by
  have hrow : comp * w + 1 ≤ (comp * w + 1) * h := Nat.le_mul_of_pos_right _ hh
  have e1 : int32 ((comp : Int) * (w : Int)) = ((comp * w : Nat) : Int) := by
    rw [← Int.ofNat_mul]
    apply int32_of_range
    · exact Int.ofNat_nonneg _
    · have : comp * w < 2 ^ 31 := by omega
      exact_mod_cast this
  refine ⟨e1, ?_⟩
  unfold png_out_len
  rw [e1]
  have e2 : (((comp * w : Nat) : Int) + 1) * (h : Int) = (((comp * w + 1) * h : Nat) : Int) := by
    push_cast
    ring
  rw [e2]
  apply int32_of_range
  · exact Int.ofNat_nonneg _
  · exact_mod_cast hfit

theorem png_out_eq_rows (data : List Nat) (w h comp stride : Nat) (hh : 0 < h)
    (hfit : (comp * w + 1) * h < 2 ^ 31) :
    png_out data w h comp stride =
      ((List.range h).map (png_row data ((comp * w : Nat) : Int) stride)).flatten := by
  obtain ⟨e1, e2⟩ := png_out_len_of_fit w h comp hh hfit
  unfold png_out png_rows
  rw [e1, e2, Int.toNat_ofNat, Int.toNat_ofNat]
  have hlen : (((List.range h).map (png_row data ((comp * w : Nat) : Int) stride)).flatten).length =
      (comp * w + 1) * h := by
    rw [flatten_map_length _ (comp * w + 1)
      (fun i => by rw [png_row_length, Int.toNat_ofNat]), List.length_range, Nat.mul_comm]
  rw [← hlen]
  exact map_getD_range _

theorem png_out_empty (data : List Nat) (w comp stride : Int) :
    png_out data w 0 comp stride = [] := by
  unfold png_out png_out_len
  rw [Int.mul_zero]
  rfl

theorem take_succ_tail {α : Type} (l : List α) (k : Nat) :
    (l.take (k + 1)).tail = (l.drop 1).take k := by
  cases l <;> simp

/-! ## C11: the filtered scanline buffer -/

/-- C11 (as stated, refuted): for `w = 65536`, `h = 65536`, `comp = 1` and
`stride_in_bytes = 65536` (all conditions of the claim hold) the product
`(comp * w + 1) * h = 4295032832` does not fit an `int`, and the buffer
`out[0 .. out_len)` does not have that length. -/
theorem png_out_length_overflow :
    (0 : Int) ≤ 65536 ∧ (1 : Int) ≤ 1 ∧ (1 : Int) * 65536 ≤ 65536 ∧
    (png_out (List.replicate (65536 * 65536) 0) 65536 65536 1 65536).length ≠
      (1 * 65536 + 1) * 65536 := by
  refine ⟨by decide, by decide, by decide, ?_⟩
  rw [png_out_length]
  decide

/-- C11 (amended): for every `w ≥ 0`, `h ≥ 0`, `comp ≥ 1` and
`stride_in_bytes ≥ comp * w` such that `(comp * w + 1) * h` fits an `int`
(is below `2 ^ 31`), the filtered scanline buffer has length
`(comp * w + 1) * h`, and for every row `y < h` the `comp * w + 1` bytes at
offset `y * (comp * w + 1)` are the filter-type byte 0 followed by the bytes
read from `data[y * stride_in_bytes + x]`, `x < comp * w`; when the caller's
memory holds that row, the bytes after the filter byte are exactly
`data[y * stride_in_bytes .. y * stride_in_bytes + comp * w)`, top row
first. -/
theorem png_out_rows (data : List Nat) (w h comp stride : Nat) (_hc : 1 ≤ comp)
    (_hs : comp * w ≤ stride) (hfit : (comp * w + 1) * h < 2 ^ 31) :
    (png_out data w h comp stride).length = (comp * w + 1) * h ∧
    ∀ y : Nat, y < h →
      ((png_out data w h comp stride).drop (y * (comp * w + 1))).take (comp * w + 1) =
        0 :: (List.range (comp * w)).map
          (fun (x : Nat) => mem_read data ((y : Int) * (stride : Int) + (x : Int))) ∧
      (y * stride + comp * w ≤ data.length →
        ((png_out data w h comp stride).drop (y * (comp * w + 1) + 1)).take (comp * w) =
          (data.drop (y * stride)).take (comp * w)) := by
  rcases Nat.eq_zero_or_pos h with h0 | hpos
  · subst h0
    refine ⟨?_, fun y hy => absurd hy (Nat.not_lt_zero y)⟩
    rw [Nat.cast_zero, png_out_empty]
    rfl
  · have hrows := png_out_eq_rows data w h comp stride hpos hfit
    have hrl : ∀ i, (png_row data ((comp * w : Nat) : Int) (stride : Int) i).length =
        comp * w + 1 := fun i => by rw [png_row_length, Int.toNat_ofNat]
    refine ⟨?_, ?_⟩
    · rw [hrows, flatten_map_length _ (comp * w + 1) hrl, List.length_range, Nat.mul_comm]
    · intro y hy
      have hslice := flatten_range_slice _ (comp * w + 1) hrl h y hy
      rw [← hrows] at hslice
      have hrow : png_row data ((comp * w : Nat) : Int) (stride : Int) y =
          0 :: (List.range (comp * w)).map
            (fun (x : Nat) => mem_read data ((y : Int) * (stride : Int) + (x : Int))) := by
        unfold png_row
        rw [Int.toNat_ofNat]
      refine ⟨by rw [hslice, hrow], ?_⟩
      intro hdata
      have hys : ((y : Int) * (stride : Int)).toNat = y * stride := by
        rw [← Int.ofNat_mul, Int.toNat_ofNat]
      have htail := png_row_tail data ((comp * w : Nat) : Int) (stride : Int) y
        (Int.ofNat_nonneg stride) (by rw [hys, Int.toNat_ofNat]; exact hdata)
      rw [hys, Int.toNat_ofNat] at htail
      rw [← htail, ← hslice, ← List.drop_drop]
      exact (take_succ_tail _ _).symm

/-- C11 (amended) at a concrete input: a 2x2 RGB image with a stride of 8
bytes. -/
theorem png_out_rows_witness :
    1 ≤ 3 ∧ 3 * 2 ≤ 8 ∧ (3 * 2 + 1) * 2 < 2 ^ 31 ∧
    ((png_out [1, 2, 3, 4, 5, 6, 0, 0, 7, 8, 9, 10, 11, 12, 0, 0]
        (2 : Nat) (2 : Nat) (3 : Nat) (8 : Nat)).length = (3 * 2 + 1) * 2 ∧
    ∀ y : Nat, y < 2 →
      ((png_out [1, 2, 3, 4, 5, 6, 0, 0, 7, 8, 9, 10, 11, 12, 0, 0]
          (2 : Nat) (2 : Nat) (3 : Nat) (8 : Nat)).drop (y * (3 * 2 + 1))).take (3 * 2 + 1) =
        0 :: (List.range (3 * 2)).map
          (fun (x : Nat) => mem_read [1, 2, 3, 4, 5, 6, 0, 0, 7, 8, 9, 10, 11, 12, 0, 0]
            ((y : Int) * ((8 : Nat) : Int) + (x : Int))) ∧
      (y * 8 + 3 * 2 ≤ [1, 2, 3, 4, 5, 6, 0, 0, 7, 8, 9, 10, 11, 12, 0, 0].length →
        ((png_out [1, 2, 3, 4, 5, 6, 0, 0, 7, 8, 9, 10, 11, 12, 0, 0]
            (2 : Nat) (2 : Nat) (3 : Nat) (8 : Nat)).drop (y * (3 * 2 + 1) + 1)).take (3 * 2) =
          ([1, 2, 3, 4, 5, 6, 0, 0, 7, 8, 9, 10, 11, 12, 0, 0].drop (y * 8)).take (3 * 2))) :=
  ⟨by decide, by decide, by decide,
    png_out_rows [1, 2, 3, 4, 5, 6, 0, 0, 7, 8, 9, 10, 11, 12, 0, 0] 2 2 3 8
      (by decide) (by decide) (by decide)⟩

/-! ## C12: byte order of the Adler-32 trailer -/

/-- C12 (evaluation of the code): for the 1x1 grayscale image with the single
pixel 0 the filtered scanline buffer is `00 00`, whose Adler-32 is 0x00020001;
the last four bytes of the file, which are the last four bytes of the data
chunk payload, are `01 00 02 00`: least significant byte first. Read as a
big-endian value they give 0x01000200, read as a little-endian value they
give the Adler-32. -/
theorem adler_trailer_least_significant_first :
    png_out [0] 1 1 1 1 = [0, 0] ∧
    png_adler [0, 0] = 0x00020001 ∧
    adler32_ref [0, 0] = 0x00020001 ∧
    (stbi_write_png ⟨false, true, true, true, true, true⟩ crc_table_init 1 1 1 [0] 1).file.map
      (fun f => f.drop (f.length - 4)) = some [1, 0, 2, 0] ∧
    read_uint32_be [1, 0, 2, 0] = 0x01000200 ∧
    read_uint32_le [1, 0, 2, 0] = 0x00020001 := by
  refine ⟨by decide, by decide, by decide, ?_, by decide, by decide⟩
  rw [png_file_1_1_1]
  decide

/-! ## C13: pixel bytes of the TGA writer -/

theorem tga_pixel_length (data : List Nat) (w comp : Int) (y x : Nat) :
    (tga_pixel data w comp y x).length = if comp ≥ 4 then 5 else 3 := by
  unfold tga_pixel
  by_cases h : comp ≥ 4 <;> simp [h]

/-- The number of pixel bytes `stbi_write_tga` writes: five per pixel when
`comp >= 4`, three per pixel otherwise. -/
theorem tga_pixels_length (data : List Nat) (w h comp : Int) :
    (tga_pixels data w h comp).length =
      h.toNat * (w.toNat * (if comp ≥ 4 then 5 else 3)) := by
  unfold tga_pixels
  rw [flatten_map_length _ (w.toNat * (if comp ≥ 4 then 5 else 3)), List.length_reverse,
    List.length_range]
  intro y
  rw [flatten_map_length _ (if comp ≥ 4 then 5 else 3) (tga_pixel_length data w comp y),
    List.length_range]

/-- C13 (evaluation of the code): for a 1x1 image with `comp = 4` the header
declares 32 bits per pixel in byte 16, that is 4 bytes per pixel, and
`stbi_write_tga` writes 5 pixel bytes after the 18-byte header (`r`, then
`b g r a`); for a 2x1 image with `comp = 1` the header declares 8 bits per
pixel and 6 pixel bytes are written instead of 2. -/
theorem tga_pixel_bytes_mismatch :
    (stbi_write_tga true 1 1 4 [10, 20, 30, 40]).file =
      some ([0, 0, 2, 0, 0, 0, 0, 0, 0, 0, 0, 0, 1, 0, 1, 0, 32, 0] ++ [10, 30, 20, 10, 40]) ∧
    (tga_header 1 1 4).getD 16 0 = 32 ∧
    (tga_pixels [10, 20, 30, 40] 1 1 4).length = 5 ∧
    1 * 1 * (32 / 8) = 4 ∧
    (stbi_write_tga true 2 1 1 [10, 20]).file =
      some ([0, 0, 2, 0, 0, 0, 0, 0, 0, 0, 0, 0, 2, 0, 1, 0, 8, 0] ++ [10, 10, 10, 20, 20, 20]) ∧
    (tga_header 2 1 1).getD 16 0 = 8 ∧
    (tga_pixels [10, 20] 2 1 1).length = 6 ∧
    2 * 1 * (8 / 8) = 2 := by
  decide

/-! ## C14: padding and file size of the BMP writer -/

theorem bmp_pad_of_fit (w : Nat) (hw : 3 * w < 2 ^ 31) :
    bmp_pad w = (((4 - (3 * w) % 4) % 4 : Nat) : Int) := by
  unfold bmp_pad
  have e1 : int32 ((w : Int) * 3) = ((3 * w : Nat) : Int) := by
    have : (w : Int) * 3 = ((3 * w : Nat) : Int) := by push_cast; ring
    rw [this]
    exact int32_of_range _ (Int.ofNat_nonneg _) (by exact_mod_cast hw)
  rw [e1, Int.tmod_eq_emod (Int.ofNat_nonneg _) (by decide),
    Int.tmod_eq_emod (by omega) (by decide)]
  omega

theorem bmp_file_size_of_fit (w h pad : Nat) (hpad : bmp_pad w = (pad : Int))
    (hfit : 54 + (3 * w + pad) * h < 2 ^ 31) (hw : 3 * w + pad < 2 ^ 31) :
    bmp_file_size w h = 54 + (3 * w + pad) * h := by
  unfold bmp_file_size
  have e1 : int32 (3 * (w : Int)) = ((3 * w : Nat) : Int) := by
    have : 3 * (w : Int) = ((3 * w : Nat) : Int) := by push_cast; ring
    rw [this]
    have hlt : 3 * w < 2 ^ 31 := by omega
    exact int32_of_range _ (Int.ofNat_nonneg _) (by exact_mod_cast hlt)
  have e2 : int32 (((3 * w : Nat) : Int) + (pad : Int)) = ((3 * w + pad : Nat) : Int) := by
    rw [← Int.ofNat_add]
    exact int32_of_range _ (Int.ofNat_nonneg _) (by exact_mod_cast hw)
  have e3 : int32 (((3 * w + pad : Nat) : Int) * (h : Int)) = (((3 * w + pad) * h : Nat) : Int) := by
    rw [← Int.ofNat_mul]
    have hlt : (3 * w + pad) * h < 2 ^ 31 := by omega
    exact int32_of_range _ (Int.ofNat_nonneg _) (by exact_mod_cast hlt)
  rw [hpad, e1, e2, e3]
  generalize (3 * w + pad) * h = n at hfit ⊢
  omega

theorem bmp_row_length (data : List Nat) (w comp : Int) (y : Nat) :
    (bmp_row data w comp y).length = w.toNat * 3 + (bmp_pad w).toNat := by
  unfold bmp_row
  rw [List.length_append, List.length_replicate,
    flatten_map_length _ 3 (fun x => by rfl), List.length_range]

theorem read_le_write32 (x : Nat) (hx : x < 2 ^ 32) : read_uint32_le (write32 x) = x := by
  have h0 : x &&& 0xff = x % 256 := Nat.and_pow_two_sub_one_eq_mod x 8
  unfold write32 read_uint32_le
  simp only [List.foldr_cons, List.foldr_nil, shift_and_ff, h0]
  omega

/-- C14: for every `w > 0`, `h > 0` with `(3 * w + 3) * h + 54 < 2 ^ 31` and
every `comp ≥ 1`, `stbi_write_bmp` computes a row padding `pad` with
`0 ≤ pad ≤ 3` and `(3 * w + pad) mod 4 = 0`, and the bytes it writes (the
14-byte file header, the 40-byte info header, then `h` rows of `3 * w` pixel
bytes plus `pad` zero bytes) are as many as the value
`fileSize = 54 + (3 * w + pad) * h` stored little-endian in bytes 2..5 of the
file header. -/
theorem bmp_size_consistent (data : List Nat) (w h comp : Nat) (_hw : 0 < w) (hh : 0 < h)
    (hfit : (3 * w + 3) * h + 54 < 2 ^ 31) (_hc : 1 ≤ comp) :
    ∃ pad : Nat, bmp_pad w = (pad : Int) ∧ pad ≤ 3 ∧ (3 * w + pad) % 4 = 0 ∧
      ∃ rows : List Nat,
        (stbi_write_bmp true w h comp data).file =
          some (bmp_file_header w h ++ bmp_info_header w h ++ rows) ∧
        (bmp_file_header w h).length = 14 ∧
        (bmp_info_header w h).length = 40 ∧
        rows.length = h * (3 * w + pad) ∧
        bmp_file_size w h = 54 + (3 * w + pad) * h ∧
        read_uint32_le (((bmp_file_header w h ++ bmp_info_header w h ++ rows).drop 2).take 4) =
          (bmp_file_header w h ++ bmp_info_header w h ++ rows).length := by
  have hrow : 3 * w + 3 ≤ (3 * w + 3) * h := Nat.le_mul_of_pos_right _ hh
  have hpad := bmp_pad_of_fit w (by omega)
  have hp3 : (4 - (3 * w) % 4) % 4 ≤ 3 := by omega
  have hmul : (3 * w + (4 - (3 * w) % 4) % 4) * h ≤ (3 * w + 3) * h :=
    Nat.mul_le_mul_right h (by omega)
  have hsize := bmp_file_size_of_fit w h _ hpad (by omega) (by omega)
  have hfh : (bmp_file_header w h).length = 14 := rfl
  have hih : (bmp_info_header w h).length = 40 := rfl
  have hrows : (((List.range (h : Int).toNat).reverse.map
      (bmp_row data (w : Int) (comp : Int))).flatten).length =
      h * (3 * w + (4 - (3 * w) % 4) % 4) := by
    rw [flatten_map_length _ (3 * w + (4 - (3 * w) % 4) % 4), List.length_reverse,
      List.length_range, Int.toNat_ofNat]
    intro y
    rw [bmp_row_length, hpad, Int.toNat_ofNat, Int.toNat_ofNat, Nat.mul_comm]
  refine ⟨(4 - (3 * w) % 4) % 4, hpad, hp3, by omega, _, rfl, hfh, hih, hrows, hsize, ?_⟩
  have hfield : ((bmp_file_header (w : Int) (h : Int) ++ bmp_info_header (w : Int) (h : Int) ++
      ((List.range (h : Int).toNat).reverse.map
        (bmp_row data (w : Int) (comp : Int))).flatten).drop 2).take 4 =
      write32 (bmp_file_size w h) := rfl
  rw [hfield, read_le_write32 _ (by rw [hsize]; omega), hsize, List.length_append,
    List.length_append, hfh, hih, hrows, Nat.mul_comm h]

/-- C14 at a concrete input: a 3x2 RGB image (9 pixel bytes and 3 padding
bytes per row). -/
theorem bmp_size_consistent_witness :
    0 < 3 ∧ 0 < 2 ∧ (3 * 3 + 3) * 2 + 54 < 2 ^ 31 ∧ 1 ≤ 3 ∧
    ∃ pad : Nat, bmp_pad (3 : Nat) = (pad : Int) ∧ pad ≤ 3 ∧ (3 * 3 + pad) % 4 = 0 ∧
      ∃ rows : List Nat,
        (stbi_write_bmp true (3 : Nat) (2 : Nat) (3 : Nat) (List.replicate 18 7)).file =
          some (bmp_file_header (3 : Nat) (2 : Nat) ++ bmp_info_header (3 : Nat) (2 : Nat) ++
            rows) ∧
        (bmp_file_header (3 : Nat) (2 : Nat)).length = 14 ∧
        (bmp_info_header (3 : Nat) (2 : Nat)).length = 40 ∧
        rows.length = 2 * (3 * 3 + pad) ∧
        bmp_file_size (3 : Nat) (2 : Nat) = 54 + (3 * 3 + pad) * 2 ∧
        read_uint32_le (((bmp_file_header (3 : Nat) (2 : Nat) ++
            bmp_info_header (3 : Nat) (2 : Nat) ++ rows).drop 2).take 4) =
          (bmp_file_header (3 : Nat) (2 : Nat) ++ bmp_info_header (3 : Nat) (2 : Nat) ++
            rows).length :=
  ⟨by decide, by decide, by decide, by decide,
    bmp_size_consistent (List.replicate 18 7) 3 2 3 (by decide) (by decide) (by decide)
      (by decide)⟩

end StbImageWrite
